import Mathlib

/-
Verification development for the harp-python message codec (`harp/io.py`) and
clock decoder/aligner (`harp/clock.py`).

Modelling conventions:
* a byte buffer is a `List ℕ` (well-formedness asserts each entry is below 256);
* numpy float64 timestamp arithmetic is carried out in exact rationals `ℚ`;
* a numpy dtype is represented by its payload type tag (the two lookup tables in
  `harp/io.py` form a bijection between tags and dtypes);
* payload elements are carried as the natural number given by their little-endian
  bytes: both codec directions move payload bytes without arithmetic on them, so
  signed and float payloads travel by bit pattern;
* raised exceptions are modelled with `Except`, with a constructor per distinct
  exception site.
-/

/-- Little-endian interpretation of a list of bytes as a natural number. -/
def fromLEBytes : List ℕ → ℕ
  | [] => 0
  | b :: rest => b + 256 * fromLEBytes rest

/-- Little-endian byte encoding of a natural number, `w` bytes wide. -/
def leBytes (w v : ℕ) : List ℕ :=
  (List.range w).map (fun k => v / 256 ^ k % 256)

/-- Read `w` bytes starting at `off` from a byte buffer, little-endian; models a
numpy little-endian element read at byte offset `off`. -/
def readLE (data : List ℕ) (off w : ℕ) : ℕ :=
  fromLEBytes ((data.drop off).take w)

/-- Element size in bytes of the payload dtype selected by a payload type tag,
following `_dtypefrompayloadtype` in `harp/io.py`
(1:u8, 2:u16, 4:u32, 8:u64, 129:i8, 130:i16, 132:i32, 136:i64, 68:f32).
`none` models the `KeyError` raised for a tag outside the table. -/
def dtypeItemsize (tag : ℕ) : Option ℕ :=
  match tag with
  | 1 => some 1
  | 2 => some 2
  | 4 => some 4
  | 8 => some 8
  | 129 => some 1
  | 130 => some 2
  | 132 => some 4
  | 136 => some 8
  | 68 => some 4
  | _ => none

/-- Seconds per sub-second tick (`_SECONDS_PER_TICK = 32e-6` in `harp/io.py`),
modelled as the exact rational; the float64 literal is a nearby dyadic and no
claim depends on the difference. -/
def SECONDS_PER_TICK : ℚ := 32 / 1000000

/-- Shallow model of the pandas data frame produced by `_fromraw` and consumed by
`format`.  `times = none` models a positional `RangeIndex`; `times = some ts`
models a `Time` index with the given values, absolute (datetime) exactly when
`isDatetime` is true.  `payload` holds the raw little-endian value of each
payload element; `dtypeTag` is the payload dtype represented by its tag;
`msgtypes` is the `MessageType` categorical column when present; `columns` is the
caller-supplied column labels. -/
structure Frame where
  isDatetime : Bool
  times : Option (List ℚ)
  payload : List (List ℕ)
  dtypeTag : Option ℕ
  msgtypes : Option (List ℕ)
  columns : Option (List String)
  deriving DecidableEq

/-- Decode-time failure outcomes of `_fromraw`.  The three mismatch constructors
model the `ValueError`s raised by the expectation checks and carry both the
expected and the actual value, exactly as the exception messages do;
`indexError` models numpy out-of-bounds indexing on the header bytes; `keyError`
models the payload-type table lookup failure; `negativeDimension` and
`bufferTooSmall` model numpy strided-view construction failures;
`invalidCategory` models `Categorical.from_codes` rejecting a message type code
above 3. -/
inductive DecodeError where
  | indexError : DecodeError
  | addressMismatch (expected actual : ℕ) : DecodeError
  | dtypeMismatch (expected actual : ℕ) : DecodeError
  | lengthMismatch (expected : ℕ) (actual : ℤ) : DecodeError
  | keyError : DecodeError
  | negativeDimension : DecodeError
  | bufferTooSmall : DecodeError
  | invalidCategory : DecodeError
  deriving DecidableEq

/-- Shared tail of `_fromraw` (`harp/io.py` lines 157-180): payload sizing,
payload dtype resolution (`KeyError` on an unknown tag), dtype and length
validation, the strided payload view, and the optional `MessageType` column.
`clearedTag` is the payload type byte with the timestamp bit cleared and
`payloadoffset` is 5, or 11 when a timestamp is present.  The payload column
count is `payloadsize // elementsize` with Python floor division (negative when
the stride is too small for the header, which numpy rejects as a negative
dimension when the view is built, after the two validation checks). -/
def _finishDecode (data : List ℕ) (dtype length : Option ℕ) (columns : Option (List String))
    (keep_type : Bool) (stride nrows payloadoffset clearedTag : ℕ)
    (isDt : Bool) (times : Option (List ℚ)) : Except DecodeError Frame :=
  let payloadsize : ℤ := (stride : ℤ) - payloadoffset - 1
  match dtypeItemsize clearedTag with
  | none => Except.error DecodeError.keyError
  | some esize =>
    let ncols : ℤ := Int.fdiv payloadsize esize
    let tail : Except DecodeError Frame :=
      if ncols < 0 then Except.error DecodeError.negativeDimension
      else
        let ncolsN := ncols.toNat
        if nrows ≠ 0 ∧ ncolsN ≠ 0 ∧
            data.length < payloadoffset + (nrows - 1) * stride + (ncolsN - 1) * esize + esize then
          Except.error DecodeError.bufferTooSmall
        else
          let payload := (List.range nrows).map (fun i =>
            (List.range ncolsN).map (fun j =>
              readLE data (i * stride + payloadoffset + j * esize) esize))
          if keep_type then
            let kinds := (List.range nrows).map (fun i => data.getD (i * stride) 0)
            if ∀ k ∈ kinds, k < 4 then
              Except.ok ⟨isDt, times, payload, some clearedTag, some kinds, columns⟩
            else Except.error DecodeError.invalidCategory
          else Except.ok ⟨isDt, times, payload, some clearedTag, none, columns⟩
    let lengthChecked : Except DecodeError Frame :=
      match length with
      | some l =>
        if (l : ℤ) = ncols then tail else Except.error (DecodeError.lengthMismatch l ncols)
      | none => tail
    match dtype with
    | some d =>
      if d = clearedTag then lengthChecked
      else Except.error (DecodeError.dtypeMismatch d clearedTag)
    | none => lengthChecked

/-- Body of `_fromraw` after the empty-buffer and expected-address checks
(`harp/io.py` lines 140-180): `stride = buffer[1] + 2`, `nrows = len // stride`,
the payload type byte at offset 4, and, when the timestamp bit is set, per-row
4-byte seconds and 2-byte tick counters through strided views (whose numpy
bounds checks are modelled), combined as `ticks * 32e-6 + seconds`, with `epoch`
applied when given.  Out-of-range header reads are `indexError`. -/
def _fromrawBody (data : List ℕ) (dtype length : Option ℕ) (columns : Option (List String))
    (epoch : Option ℚ) (keep_type : Bool) : Except DecodeError Frame :=
  if data.length ≤ 1 then Except.error DecodeError.indexError
  else
    let stride := data.getD 1 0 + 2
    let nrows := data.length / stride
    if data.length ≤ 4 then Except.error DecodeError.indexError
    else
      let ptype := data.getD 4 0
      if ptype &&& 16 ≠ 0 then
        if nrows ≠ 0 ∧ data.length < 5 + (nrows - 1) * stride + 4 then
          Except.error DecodeError.bufferTooSmall
        else if nrows ≠ 0 ∧ data.length < 9 + (nrows - 1) * stride + 2 then
          Except.error DecodeError.bufferTooSmall
        else
          let time := (List.range nrows).map (fun i =>
            (readLE data (i * stride + 9) 2 : ℚ) * SECONDS_PER_TICK +
              (readLE data (i * stride + 5) 4 : ℚ))
          match epoch with
          | some e =>
            _finishDecode data dtype length columns keep_type stride nrows 11
              (ptype &&& 239) true (some (time.map (fun t => e + t)))
          | none =>
            _finishDecode data dtype length columns keep_type stride nrows 11
              (ptype &&& 239) false (some time)
      else
        _finishDecode data dtype length columns keep_type stride nrows 5
          ptype false none

/-- Shallow model of `_fromraw` in `harp/io.py` (lines 125-180).  An empty buffer
returns an empty frame whose index is a float64 `Time` index (not a datetime
index, regardless of `epoch`).  Otherwise the expected-address check runs first
(reading byte 2), then the stride, row count, timestamp and payload logic of
`_fromrawBody`.  The optional numpy dtype conversion performed by pandas when
`columns` of the wrong arity are supplied is not modelled (no claim exercises
it). -/
def _fromraw (data : List ℕ) (address dtype length : Option ℕ) (columns : Option (List String))
    (epoch : Option ℚ) (keep_type : Bool) : Except DecodeError Frame :=
  if data.length = 0 then
    Except.ok ⟨false, some [], [], none, none, columns⟩
  else
    match address with
    | some a =>
      if data.length ≤ 2 then Except.error DecodeError.indexError
      else if a ≠ data.getD 2 0 then
        Except.error (DecodeError.addressMismatch a (data.getD 2 0))
      else _fromrawBody data dtype length columns epoch keep_type
    | none => _fromrawBody data dtype length columns epoch keep_type

/-- Encode-time failure outcomes of `format`: no message type available, a
non-datetime index encoded with an epoch, a payload dtype with no tag (which is
what selecting zero payload columns produces, since the empty selection has
dtype float64), and frames that no rectangular pandas data frame could present
(mismatched row counts between index, payload and message type column). -/
inductive EncodeError where
  | missingMessageType : EncodeError
  | expectedDatetimeIndex : EncodeError
  | keyError : EncodeError
  | invalidFrame : EncodeError
  deriving DecidableEq

/-- Round a rational to the nearest integer, ties to even: the semantics of
`np.around` on an exactly representable value. -/
def roundHalfEven (q : ℚ) : ℤ :=
  if Int.fract q < 1 / 2 then ⌊q⌋
  else if 1 / 2 < Int.fract q then ⌊q⌋ + 1
  else if Even ⌊q⌋ then ⌊q⌋ else ⌊q⌋ + 1

/-- Truncating cast of a rational to `uint32`: the semantics of
`ndarray.astype(np.uint32)` on in-range nonnegative values (out-of-range and
negative inputs are undefined behaviour in numpy; the model clamps and wraps). -/
def truncUInt32 (q : ℚ) : ℕ := ⌊q⌋.toNat % 2 ^ 32

/-- Shallow model of `format` in `harp/io.py` (lines 219-304).  An empty frame
yields an empty buffer.  The message kind comes from the `MessageType` column
when present, else from the argument.  The index is converted to seconds when an
`epoch` is given (requiring a datetime index); a `RangeIndex` means the messages
carry no timestamp.  Each row is message kind, `stride - 2`, address, port
(default 255), payload type tag (timestamp bit ORed in when timestamped),
optional 4-byte truncated seconds plus 2-byte rounded tick counter, the payload
bytes, and a trailing mod-256 checksum of the preceding row bytes.  The optional
`dtype` conversion argument is not modelled: every claim invokes `format` with
`dtype=None`, where `astype` is never called.  Encoding a datetime-indexed frame
without an epoch (which numpy rejects at the uint32 cast) is likewise outside
the claims and not modelled. -/
def format (data : Frame) (address : ℕ) (port : Option ℕ) (epoch : Option ℚ)
    (message_type : Option ℕ) : Except EncodeError (List ℕ) :=
  let nrows := data.payload.length
  if nrows = 0 then Except.ok []
  else
    let msgtypeE : Except EncodeError (List ℕ) :=
      match data.msgtypes with
      | some ms => Except.ok ms
      | none =>
        match message_type with
        | some mt => Except.ok (List.replicate nrows mt)
        | none => Except.error EncodeError.missingMessageType
    match msgtypeE with
    | Except.error e => Except.error e
    | Except.ok msgtype =>
      let timeE : Except EncodeError (Bool × List ℚ) :=
        match epoch, data.times with
        | some e, some ts =>
          if data.isDatetime then Except.ok (true, ts.map (fun t => t - e))
          else Except.error EncodeError.expectedDatetimeIndex
        | some _, none => Except.error EncodeError.expectedDatetimeIndex
        | none, some ts => Except.ok (true, ts)
        | none, none => Except.ok (false, [])
      match timeE with
      | Except.error e => Except.error e
      | Except.ok (is_timestamped, time) =>
        let portV := (port.getD 255)
        let ncols := (data.payload.headD []).length
        if data.payload.any (fun r => r.length ≠ ncols) ∨ msgtype.length ≠ nrows ∨
            (is_timestamped ∧ time.length ≠ nrows) then
          Except.error EncodeError.invalidFrame
        else
          match data.dtypeTag with
          | none => Except.error EncodeError.keyError
          | some tag =>
            match dtypeItemsize tag with
            | none => Except.error EncodeError.keyError
            | some esize =>
              if ncols = 0 then Except.error EncodeError.keyError
              else
                let payloadlength := ncols * esize
                let ptypeByte := if is_timestamped then tag ||| 16 else tag
                let stride := payloadlength + 6 + (if is_timestamped then 6 else 0)
                let rows := (List.range nrows).map (fun i =>
                  let body :=
                    [(msgtype.getD i 0) % 256, (stride - 2) % 256, address % 256,
                      portV % 256, ptypeByte % 256]
                    ++ (if is_timestamped then
                          let t := time.getD i 0
                          let secs := truncUInt32 t
                          let ticks :=
                            ((roundHalfEven ((t - (secs : ℚ)) / SECONDS_PER_TICK)) % 65536).toNat
                          leBytes 4 secs ++ leBytes 2 ticks
                        else [])
                    ++ ((data.payload.getD i []).map (fun v => leBytes esize (v % 256 ^ esize))).flatten
                  body ++ [body.sum % 256])
                Except.ok rows.flatten

/-- Stride of the first message of a buffer: `buffer[1] + 2`. -/
def bufStride (data : List ℕ) : ℕ := data.getD 1 0 + 2

/-- Row count of a buffer: `len(buffer) // stride` (floor division). -/
def bufRows (data : List ℕ) : ℕ := data.length / bufStride data

/-- Whether the first message's payload type byte has the timestamp bit set. -/
def bufTimestamped (data : List ℕ) : Prop := data.getD 4 0 &&& 16 ≠ 0

instance (data : List ℕ) : Decidable (bufTimestamped data) := by
  unfold bufTimestamped; infer_instance

/-- Payload byte offset within a message: 5, or 11 when timestamped. -/
def bufPayloadOffset (data : List ℕ) : ℕ := if bufTimestamped data then 11 else 5

/-- Payload type tag of the first message with the timestamp bit cleared (the
code clears the bit only when it was set). -/
def bufClearedTag (data : List ℕ) : ℕ :=
  if bufTimestamped data then data.getD 4 0 &&& 239 else data.getD 4 0

/-- Element size selected by the first message's cleared payload type tag. -/
def bufESize (data : List ℕ) : ℕ := (dtypeItemsize (bufClearedTag data)).getD 1

/-- A buffer on which `_fromraw` completes without raising: at least one full
message, the byte length an exact multiple of the stride, a stride large enough
for the header (and timestamp fields when present) plus the checksum byte, a
payload type tag in the dtype table, and message kind bytes below 4 (so that the
`MessageType` categorical can always be built). -/
def WellFormedBuffer (data : List ℕ) : Prop :=
  1 ≤ bufRows data ∧
  data.length = bufRows data * bufStride data ∧
  bufPayloadOffset data + 1 ≤ bufStride data ∧
  (dtypeItemsize (bufClearedTag data)).isSome ∧
  (∀ i < bufRows data, data.getD (i * bufStride data) 0 < 4)

instance (data : List ℕ) : Decidable (WellFormedBuffer data) := by
  unfold WellFormedBuffer; infer_instance

/-- A buffer for which decode followed by encode is byte-identical: well formed
as above, every entry an actual byte, at least one payload element per row with
no slack bytes after the payload, constant header bytes across rows (message
kind, length byte, address, type tag) with port 255, a correct per-row checksum,
and (when timestamped) tick counters below one second. -/
def WellFormedRT (data : List ℕ) : Prop :=
  WellFormedBuffer data ∧
  (∀ b ∈ data, b < 256) ∧
  1 ≤ (bufStride data - bufPayloadOffset data - 1) / bufESize data ∧
  bufESize data ∣ (bufStride data - bufPayloadOffset data - 1) ∧
  (∀ i < bufRows data,
      data.getD (i * bufStride data) 0 = data.getD 0 0 ∧
      data.getD (i * bufStride data + 1) 0 = data.getD 1 0 ∧
      data.getD (i * bufStride data + 2) 0 = data.getD 2 0 ∧
      data.getD (i * bufStride data + 3) 0 = 255 ∧
      data.getD (i * bufStride data + 4) 0 = data.getD 4 0) ∧
  (∀ i < bufRows data,
      data.getD (i * bufStride data + (bufStride data - 1)) 0 =
        ((data.drop (i * bufStride data)).take (bufStride data - 1)).sum % 256) ∧
  (bufTimestamped data → ∀ i < bufRows data, readLE data (i * bufStride data + 9) 2 ≤ 31249)

instance (data : List ℕ) : Decidable (WellFormedRT data) := by
  unfold WellFormedRT; infer_instance

/-- Payload element count of a decoded message (the second component of the
payload view shape, `payloadsize // elementsize`). -/
def decodedNCols (data : List ℕ) : ℕ :=
  (bufStride data - bufPayloadOffset data - 1) / bufESize data

/-- Per-row timestamps decoded from a timestamped buffer, in seconds:
`ticks * 32e-6 + seconds`. -/
def decodedTimes (data : List ℕ) : List ℚ :=
  (List.range (bufRows data)).map (fun i =>
    (readLE data (i * bufStride data + 9) 2 : ℚ) * SECONDS_PER_TICK +
      (readLE data (i * bufStride data + 5) 4 : ℚ))

/-- Per-row payload element values decoded from a buffer. -/
def decodedPayload (data : List ℕ) : List (List ℕ) :=
  (List.range (bufRows data)).map (fun i =>
    (List.range (decodedNCols data)).map (fun j =>
      readLE data (i * bufStride data + bufPayloadOffset data + j * bufESize data)
        (bufESize data)))

/-- Per-row message kind bytes of a buffer. -/
def decodedKinds (data : List ℕ) : List ℕ :=
  (List.range (bufRows data)).map (fun i => data.getD (i * bufStride data) 0)

/-- The frame produced by a successful `_fromraw` on a well-formed buffer. -/
def decodedFrame (data : List ℕ) (columns : Option (List String)) (epoch : Option ℚ)
    (keep_type : Bool) : Frame :=
  if bufTimestamped data then
    match epoch with
    | some e =>
      ⟨true, some ((decodedTimes data).map (fun t => e + t)), decodedPayload data,
        some (bufClearedTag data), if keep_type then some (decodedKinds data) else none,
        columns⟩
    | none =>
      ⟨false, some (decodedTimes data), decodedPayload data,
        some (bufClearedTag data), if keep_type then some (decodedKinds data) else none,
        columns⟩
  else
    ⟨false, none, decodedPayload data,
      some (bufClearedTag data), if keep_type then some (decodedKinds data) else none,
      columns⟩

/-- Least-squares line fit (slope, offset) as computed by
`np.linalg.lstsq(np.vstack([x, np.ones(len(x))]).T, y, rcond=None)`: the unique
least-squares solution by the normal equations when the design matrix has full
rank, and the minimum-norm solution for a single sample.  A degenerate
multi-sample system with zero variance returns (0, 0); it is never reached from
strictly ascending anchors. -/
def lstsqLine (xs ys : List ℚ) : ℚ × ℚ :=
  match xs, ys with
  | [x], [y] => (x * y / (x * x + 1), y / (x * x + 1))
  | _, _ =>
    let n : ℚ := xs.length
    let sx := xs.sum
    let sy := ys.sum
    let sxx := (xs.map (fun x => x * x)).sum
    let sxy := (List.zipWith (fun x y => x * y) xs ys).sum
    let den := n * sxx - sx * sx
    if den = 0 then (0, 0)
    else ((n * sxy - sx * sy) / den, (sy * sxx - sx * sxy) / den)

/-- Left insertion index: the documented contract of
`np.searchsorted(a, t, side="left")` on a sorted array (the first index whose
element is not below `t`). -/
def searchsortedLeft (a : List ℚ) (t : ℚ) : ℕ :=
  match a with
  | [] => 0
  | x :: rest => if t ≤ x then 0 else searchsortedLeft rest t + 1

/-- Shallow model of `align_timestamps_to_harp_clock` (`harp/clock.py` lines
5-63).  `none` models the `ValueError` for mismatched anchor array lengths.  The
slope/offset table stores the global least-squares fit at index 0 and the
consecutive-pair segment fits at indices 1..N; each query timestamp is looked up
with the left insertion index, an index of N wraps to 0, and the fit is applied
as `t * slope + offset`. -/
def align_timestamps_to_harp_clock
    (timestamps_to_align start_times harp_times : List ℚ) : Option (List ℚ) :=
  if start_times.length ≠ harp_times.length then none
  else
    let N := start_times.length
    let fits : List (ℚ × ℚ) :=
      lstsqLine start_times harp_times ::
        (List.range N).map (fun i =>
          lstsqLine ((start_times.drop i).take 2) ((harp_times.drop i).take 2))
    some (timestamps_to_align.map (fun t =>
      let nearest := searchsortedLeft start_times t
      let idx := if nearest = N then 0 else nearest
      let f := fits.getD idx (0, 0)
      t * f.1 + f.2))

/-- Gap indices of a transition stream:
`np.where(np.diff(timestamps) > min_delta)[0]` in `get_barcode_edges`. -/
def barcodeSplits (timestamps : List ℚ) (min_delta : ℚ) : List ℕ :=
  (List.range (timestamps.length - 1)).filter
    (fun i => decide (min_delta < timestamps.getD (i + 1) 0 - timestamps.getD i 0))

/-- Shallow model of `get_barcode_edges` (`harp/clock.py` lines 138-159):
`list(zip(splits[:-1] + 1, splits[1:] + 1))`. -/
def get_barcode_edges (timestamps : List ℚ) (min_delta : ℚ) : List (ℕ × ℕ) :=
  let splits := barcodeSplits timestamps min_delta
  List.zip (splits.dropLast.map (fun s => s + 1)) ((splits.drop 1).map (fun s => s + 1))

/-- Semantics of `np.split(arr, positions)` with a running previous split point:
slices `arr[prev:p]` for each position, then a final `arr[prev:]`. -/
def npSplitAux (arr : List ℕ) (prev : ℕ) : List ℕ → List (List ℕ)
  | [] => [arr.drop prev]
  | p :: rest => ((arr.drop prev).take (p - prev)) :: npSplitAux arr p rest

/-- Semantics of `np.split(arr, positions)` for a sorted position list. -/
def npSplit (arr : List ℕ) (ps : List ℕ) : List (List ℕ) := npSplitAux arr 0 ps

/-- Failure outcomes of `remove_outliers`: `emptyConcat` models the `ValueError`
raised by `np.concatenate` on an empty list of runs, `indexError` models fancy
indexing of `start_times` with an out-of-range index. -/
inductive ClockError where
  | emptyConcat : ClockError
  | indexError : ClockError
  deriving DecidableEq

/-- Decidable equality of `Except` outcomes, used to evaluate the model on
concrete buffers. -/
instance {ε α : Type} [DecidableEq ε] [DecidableEq α] : DecidableEq (Except ε α) := fun x y =>
  match x, y with
  | Except.ok a, Except.ok b => decidable_of_iff (a = b) (by simp)
  | Except.error a, Except.error b => decidable_of_iff (a = b) (by simp)
  | Except.ok _, Except.error _ => isFalse (fun hc => Except.noConfusion hc)
  | Except.error _, Except.ok _ => isFalse (fun hc => Except.noConfusion hc)

/-- Shallow model of `remove_outliers` (`harp/clock.py` lines 198-247): split the
index range at every position whose consecutive Harp time difference is not
exactly 1, keep the runs longer than 1, and concatenate them (raising when no
run survives); both input arrays are then filtered by the surviving indices.
The non-fatal outlier-count warning is not modelled. -/
def remove_outliers (start_times : List ℚ) (harp_times : List ℤ) :
    Except ClockError (List ℚ × List ℤ) :=
  let n := harp_times.length
  let splitPos := ((List.range (n - 1)).filter
      (fun j => decide (harp_times.getD (j + 1) 0 - harp_times.getD j 0 ≠ 1))).map
      (fun j => j + 1)
  let blocks := (npSplit (List.range n) splitPos).filter (fun b => decide (1 < b.length))
  if blocks.isEmpty then Except.error ClockError.emptyConcat
  else
    let new_indices := blocks.flatten
    if new_indices.all (fun i => decide (i < start_times.length)) then
      Except.ok (new_indices.map (fun i => start_times.getD i 0),
                 new_indices.map (fun i => harp_times.getD i 0))
    else Except.error ClockError.indexError

/-- Kept-index predicate for `remove_outliers`: an index survives exactly when it
sits in a maximal run of consecutive ascending-by-exactly-1 Harp times of length
above 1, which happens exactly when it has a neighbour one step away inside its
run (its predecessor differs by exactly 1, or its successor does). -/
def keptIndex (harp_times : List ℤ) (i : ℕ) : Prop :=
  (0 < i ∧ harp_times.getD i 0 - harp_times.getD (i - 1) 0 = 1) ∨
  (i + 1 < harp_times.length ∧ harp_times.getD (i + 1) 0 - harp_times.getD i 0 = 1)

instance (harp_times : List ℤ) (i : ℕ) : Decidable (keptIndex harp_times i) := by
  unfold keptIndex; infer_instance

/-- Surviving indices of `remove_outliers`, in ascending order. -/
def keptIndices (harp_times : List ℤ) : List ℕ :=
  (List.range harp_times.length).filter (fun i => decide (keptIndex harp_times i))

/-- Whether the frame produced by `_fromraw` has a datetime index: only when the
buffer is timestamped and an epoch was supplied. -/
def decodedIsDt (data : List ℕ) (epoch : Option ℚ) : Bool :=
  if bufTimestamped data then epoch.isSome else false

/-- The index produced by `_fromraw`: `none` (a positional index) for an
untimestamped buffer, otherwise the decoded times, shifted by the epoch when
one is supplied. -/
def decodedTimesArg (data : List ℕ) (epoch : Option ℚ) : Option (List ℚ) :=
  if bufTimestamped data then
    match epoch with
    | some e => some ((decodedTimes data).map (fun t => e + t))
    | none => some (decodedTimes data)
  else none

/-! General helper lemmas. -/

theorem getD_map_range {α : Type} (f : ℕ → α) (d : α) {n i : ℕ} (h : i < n) :
    ((List.range n).map f).getD i d = f i := by
  rw [List.getD_eq_getElem _ _ (by simpa using h)]
  simp

theorem take_drop_eq_getD_cons {α : Type} (data : List α) (d : α) (m k : ℕ)
    (h : m < data.length) :
    (data.drop m).take (k + 1) = data.getD m d :: (data.drop (m + 1)).take k := by
  rw [List.drop_eq_getElem_cons h, List.take_succ_cons, List.getD_eq_getElem _ _ h]

theorem searchsortedLeft_getD (xs : List ℚ) (hs : xs.Sorted (fun a b => a < b)) :
    ∀ k, k < xs.length → searchsortedLeft xs (xs.getD k 0) = k := by
  induction xs with
  | nil => intro k hk; simp at hk
  | cons x rest ih =>
    intro k hk
    match k with
    | 0 => simp [searchsortedLeft]
    | k + 1 =>
      have hmem : rest.getD k 0 ∈ rest := by
        rw [List.getD_eq_getElem _ _ (by simpa using hk)]
        exact List.getElem_mem _
      have hx : x < rest.getD k 0 := (List.sorted_cons.mp hs).1 _ hmem
      simp only [searchsortedLeft, List.getD_cons_succ]
      rw [if_neg (not_le.mpr hx), ih (List.sorted_cons.mp hs).2 k (by simpa using hk)]

theorem drop_take_two (xs : List ℚ) (k : ℕ) (h : k + 1 < xs.length) :
    (xs.drop k).take 2 = [xs.getD k 0, xs.getD (k + 1) 0] := by
  rw [take_drop_eq_getD_cons xs 0 k 1 (by omega), take_drop_eq_getD_cons xs 0 (k + 1) 0 h]
  simp

theorem lstsqLine_pair (x0 x1 y0 y1 : ℚ) (hne : x0 ≠ x1) :
    x1 * (lstsqLine [x0, x1] [y0, y1]).1 + (lstsqLine [x0, x1] [y0, y1]).2 = y1 := by
  have hden : ((([x0, x1] : List ℚ).length : ℚ) *
        (([x0, x1] : List ℚ).map (fun x => x * x)).sum -
      ([x0, x1] : List ℚ).sum * ([x0, x1] : List ℚ).sum) ≠ 0 := by
    have he : ((([x0, x1] : List ℚ).length : ℚ) *
          (([x0, x1] : List ℚ).map (fun x => x * x)).sum -
        ([x0, x1] : List ℚ).sum * ([x0, x1] : List ℚ).sum) = (x0 - x1) ^ 2 := by
      simp [List.sum_cons]
      ring
    rw [he]
    exact pow_ne_zero 2 (sub_ne_zero.mpr hne)
  simp only [lstsqLine]
  rw [if_neg hden]
  dsimp only
  rw [← mul_div_assoc, div_add_div_same, div_eq_iff hden]
  simp only [List.sum_cons, List.sum_nil, List.map_cons, List.map_nil,
    List.zipWith_cons_cons, List.zipWith_nil_right, List.length_cons, List.length_nil]
  push_cast
  ring

/-! Claim C3. -/

/-- C3 (code bug): decoding a zero-length buffer returns a zero-row frame that
carries the caller-supplied columns but whose index is always the float64 `Time`
index, even when an epoch is supplied; the claim (and the repository's own test
for `empty_0.bin` with `epoch=REFERENCE_EPOCH`, which asserts a datetime index)
expects a datetime index in that case. -/
theorem c3_empty_decode_float_index (e : ℚ) (cols : Option (List String))
    (address dtype length : Option ℕ) (keep_type : Bool) :
    _fromraw [] address dtype length cols (some e) keep_type =
      Except.ok ⟨false, some [], [], none, none, cols⟩ := by
  unfold _fromraw
  rfl

/-! Claim C10. -/

/-- C10 (counterexample): on the 3-byte buffer `[0, 0, 7]` with a mismatching
expected address 5, decoding raises the documented address validation error,
not an out-of-bounds indexing error, refuting the claim for calls that supply a
mismatching expected address. -/
theorem c10_counterexample :
    _fromraw [0, 0, 7] (some 5) none none none none false =
      Except.error (DecodeError.addressMismatch 5 7) := by
  unfold _fromraw
  rfl

/-- C10 (amended): for every non-empty buffer of fewer than 5 bytes, decoding
raises an out-of-bounds indexing error when reading the length byte or the
payload-type byte, provided the expected-address check does not fire first
(no expected address, or a buffer too short for byte 2, or a matching expected
address); expected dtype and length are never reached. -/
theorem c10_short_buffer (data : List ℕ) (address dtype length : Option ℕ)
    (cols : Option (List String)) (epoch : Option ℚ) (keep_type : Bool)
    (h0 : data ≠ []) (h4 : data.length < 5)
    (haddr : address = none ∨ data.length ≤ 2 ∨ address = some (data.getD 2 0)) :
    _fromraw data address dtype length cols epoch keep_type =
      Except.error DecodeError.indexError := by
  have hlen0 : ¬ data.length = 0 := fun h => h0 (List.length_eq_zero.mp h)
  have hbody : _fromrawBody data dtype length cols epoch keep_type =
      Except.error DecodeError.indexError := by
    unfold _fromrawBody
    by_cases h1 : data.length ≤ 1
    · rw [if_pos h1]
    · rw [if_neg h1, if_pos (by omega)]
  unfold _fromraw
  rw [if_neg hlen0]
  cases address with
  | none => exact hbody
  | some a =>
    dsimp only
    by_cases h2 : data.length ≤ 2
    · rw [if_pos h2]
    · have ha : a = data.getD 2 0 := by
        rcases haddr with h | h | h
        · exact absurd h (by simp)
        · omega
        · exact Option.some.inj h
      rw [if_neg h2, ha, if_neg (by simp)]
      exact hbody

/-! Claim C5. -/

/-- C5: a query timestamp whose left insertion index in the anchor array equals N
is aligned with the global least-squares fit stored at index 0 of the fit table,
not with the last local segment's fit. -/
theorem c5_beyond_last_anchor_uses_global_fit (xs ys : List ℚ) (t : ℚ)
    (hlen : xs.length = ys.length) (hidx : searchsortedLeft xs t = xs.length) :
    align_timestamps_to_harp_clock [t] xs ys =
      some [t * (lstsqLine xs ys).1 + (lstsqLine xs ys).2] := by
  unfold align_timestamps_to_harp_clock
  rw [if_neg (by omega)]
  simp [hidx]

/-- Witness for C5 at concrete anchors [0, 1] / [0, 1] and query 2. -/
theorem c5_witness :
    align_timestamps_to_harp_clock [2] [0, 1] [0, 1] =
      some [2 * (lstsqLine [0, 1] [0, 1]).1 + (lstsqLine [0, 1] [0, 1]).2] :=
  c5_beyond_last_anchor_uses_global_fit [0, 1] [0, 1] 2 rfl (by decide)

/-! Claim C2. -/

/-- C2 (counterexample): with the strictly ascending anchors `[0, 1, 2]` and harp
times `[0, 0, 2]` (N = 3), aligning the first anchor's local time 0 applies the
global least-squares fit and returns -1/3, not the anchor's harp time 0, so the
claim fails at k = 0. -/
theorem c2_counterexample :
    align_timestamps_to_harp_clock [0] [0, 1, 2] [0, 0, 2] = some [-(1 / 3)] ∧
      (-(1 / 3) : ℚ) ≠ 0 := by
  refine ⟨?_, by norm_num⟩
  unfold align_timestamps_to_harp_clock
  norm_num [searchsortedLeft, lstsqLine, List.zipWith]

/-- C2 (amended): for strictly ascending anchors and every index k with
1 ≤ k < N, aligning the k-th anchor's local time reproduces the k-th harp time
exactly, because the segment fit selected for it passes through its two anchor
endpoints; at k = 0 the global fit is selected instead (see the counterexample). -/
theorem c2_anchor_reproduction (xs ys : List ℚ) (hlen : xs.length = ys.length)
    (hsort : xs.Sorted (fun a b => a < b)) (k : ℕ) (hk1 : 1 ≤ k) (hk : k < xs.length) :
    align_timestamps_to_harp_clock [xs.getD k 0] xs ys = some [ys.getD k 0] := by
  unfold align_timestamps_to_harp_clock
  rw [if_neg (by omega)]
  have hnear : searchsortedLeft xs (xs.getD k 0) = k := searchsortedLeft_getD xs hsort k hk
  simp only [List.map_cons, List.map_nil, Option.some.injEq, List.cons.injEq, and_true]
  rw [hnear, if_neg (by omega)]
  obtain ⟨j, rfl⟩ : ∃ j, k = j + 1 := ⟨k - 1, by omega⟩
  rw [List.getD_cons_succ, getD_map_range _ _ (by omega)]
  rw [drop_take_two xs j (by omega), drop_take_two ys j (by omega)]
  have hx : xs.getD j 0 < xs.getD (j + 1) 0 := by
    have h2 := hsort.get_strictMono
      (show (⟨j, by omega⟩ : Fin xs.length) < ⟨j + 1, hk⟩ by simp [Fin.lt_def])
    simpa [List.get_eq_getElem, List.getD_eq_getElem, hk,
      (show j < xs.length by omega)] using h2
  exact lstsqLine_pair _ _ _ _ (ne_of_lt hx)

/-- Witness for C2 (amended) at anchors [0, 1, 2] / [0, 0, 2] and k = 1. -/
theorem c2_witness :
    align_timestamps_to_harp_clock [([(0 : ℚ), 1, 2].getD 1 0)] [0, 1, 2] [0, 0, 2] =
      some [([(0 : ℚ), 0, 2].getD 1 0)] :=
  c2_anchor_reproduction [0, 1, 2] [0, 0, 2] rfl (by decide) 1 (by decide) (by decide)

/-! Claim C7. -/

theorem mem_barcodeSplits (ts : List ℚ) (δ : ℚ) (i : ℕ) :
    i ∈ barcodeSplits ts δ ↔
      i < ts.length - 1 ∧ δ < ts.getD (i + 1) 0 - ts.getD i 0 := by
  simp [barcodeSplits, List.mem_filter, List.mem_range]

theorem sorted_barcodeSplits (ts : List ℚ) (δ : ℚ) :
    (barcodeSplits ts δ).Sorted (fun a b => a < b) :=
  (List.sorted_lt_range _).filter _

theorem get_barcode_edges_eq_zip (ts : List ℚ) (δ : ℚ) :
    get_barcode_edges ts δ =
      List.zip ((barcodeSplits ts δ).dropLast.map (fun s => s + 1))
        (((barcodeSplits ts δ).drop 1).map (fun s => s + 1)) := rfl

/-- C7: the segmenter places a boundary at every consecutive difference strictly
above `min_delta` and emits exactly the half-open ranges between consecutive
boundaries: it returns one range per adjacent boundary pair (so fewer than two
boundaries emit nothing), every adjacent boundary pair is emitted, and each
emitted range `[s, e)` is a maximal gap-free run: a gap right before `s`, a gap
right after `e - 1`, and no gap strictly inside. -/
theorem c7_barcode_segmentation (ts : List ℚ) (δ : ℚ)
    (hsort : ts.Sorted (fun a b => a < b)) :
    (get_barcode_edges ts δ).length = (barcodeSplits ts δ).length - 1 ∧
    (∀ j, j + 1 < (barcodeSplits ts δ).length →
      ((barcodeSplits ts δ).getD j 0 + 1, (barcodeSplits ts δ).getD (j + 1) 0 + 1) ∈
        get_barcode_edges ts δ) ∧
    (∀ s e, (s, e) ∈ get_barcode_edges ts δ →
      1 ≤ s ∧ s < e ∧ e < ts.length ∧
      δ < ts.getD s 0 - ts.getD (s - 1) 0 ∧
      δ < ts.getD e 0 - ts.getD (e - 1) 0 ∧
      (∀ i, s ≤ i → i + 1 < e → ts.getD (i + 1) 0 - ts.getD i 0 ≤ δ)) := by
  have hmono := (sorted_barcodeSplits ts δ).get_strictMono
  refine ⟨?_, ?_, ?_⟩
  · simp [get_barcode_edges_eq_zip, List.length_zip, List.length_dropLast]
  · intro j hj
    have hjz : j < (List.zip ((barcodeSplits ts δ).dropLast.map (fun s => s + 1))
        (((barcodeSplits ts δ).drop 1).map (fun s => s + 1))).length := by
      simp only [List.length_zip, List.length_map, List.length_dropLast, List.length_drop]
      omega
    have hmem := List.getElem_mem hjz
    have hjd : j < (barcodeSplits ts δ).dropLast.length := by
      simp [List.length_dropLast]; omega
    have hj1 : j < ((barcodeSplits ts δ).drop 1).length := by simp; omega
    rw [List.getElem_zip] at hmem
    simp only [List.getElem_map, List.getElem_dropLast, List.getElem_drop] at hmem
    rw [get_barcode_edges_eq_zip,
      List.getD_eq_getElem _ _ (show j < (barcodeSplits ts δ).length by omega),
      List.getD_eq_getElem _ _ (show j + 1 < (barcodeSplits ts δ).length by omega)]
    have hj1b : 1 + j < (barcodeSplits ts δ).length := by omega
    have hjb : j + 1 < (barcodeSplits ts δ).length := by omega
    have h1j : ((barcodeSplits ts δ)[1 + j] : ℕ) = (barcodeSplits ts δ)[j + 1] := by
      congr 1
      omega
    rw [h1j] at hmem
    exact hmem
  · intro s e hmem
    have hmem' : (s, e) ∈ List.zip ((barcodeSplits ts δ).dropLast.map (fun s => s + 1))
        (((barcodeSplits ts δ).drop 1).map (fun s => s + 1)) := by
      rw [← get_barcode_edges_eq_zip]; exact hmem
    obtain ⟨m, hm, he⟩ := List.mem_iff_getElem.mp hmem'
    have hzl : m < (barcodeSplits ts δ).length - 1 := by
      simp [List.length_zip, List.length_dropLast] at hm
      omega
    have hmd : m < (barcodeSplits ts δ).dropLast.length := by
      simp [List.length_dropLast]; omega
    have hm1 : m < ((barcodeSplits ts δ).drop 1).length := by simp; omega
    rw [List.getElem_zip] at he
    simp only [List.getElem_map, List.getElem_dropLast, List.getElem_drop,
      Prod.mk.injEq] at he
    obtain ⟨hs, hev⟩ := he
    have hmb : m < (barcodeSplits ts δ).length := by omega
    have hm1b : 1 + m < (barcodeSplits ts δ).length := by omega
    have hsm := List.getElem_mem hmb
    have hsm1 := List.getElem_mem hm1b
    rw [mem_barcodeSplits] at hsm hsm1
    have hlt : (barcodeSplits ts δ)[m] < (barcodeSplits ts δ)[1 + m] := by
      have h2 := hmono (show (⟨m, hmb⟩ : Fin (barcodeSplits ts δ).length) < ⟨1 + m, hm1b⟩ by
        rw [Fin.mk_lt_mk]; omega)
      simpa [List.get_eq_getElem] using h2
    refine ⟨by omega, by omega, by omega, ?_, ?_, ?_⟩
    · have h1 : s - 1 = (barcodeSplits ts δ)[m] := by omega
      have h2 : s = (barcodeSplits ts δ)[m] + 1 := by omega
      rw [h1, h2]
      exact hsm.2
    · have h1 : e - 1 = (barcodeSplits ts δ)[1 + m] := by omega
      have h2 : e = (barcodeSplits ts δ)[1 + m] + 1 := by omega
      rw [h1, h2]
      exact hsm1.2
    · intro i hsi hie
      by_contra hgap
      push_neg at hgap
      have himem : i ∈ barcodeSplits ts δ := by
        rw [mem_barcodeSplits]
        exact ⟨by omega, hgap⟩
      obtain ⟨r, hr, hri⟩ := List.mem_iff_getElem.mp himem
      have hr1 : (barcodeSplits ts δ)[m] < (barcodeSplits ts δ)[r] := by omega
      have hr2 : (barcodeSplits ts δ)[r] < (barcodeSplits ts δ)[1 + m] := by omega
      have hlt1 : m < r := by
        by_contra hc
        push_neg at hc
        rcases Nat.lt_or_ge r m with hc2 | hc2
        · have h3 := hmono (show (⟨r, hr⟩ : Fin (barcodeSplits ts δ).length) < ⟨m, hmb⟩ by
            rw [Fin.mk_lt_mk]; omega)
          simp [List.get_eq_getElem] at h3
          omega
        · have h4 : r = m := by omega
          subst h4
          omega
      have hlt2 : r < 1 + m := by
        by_contra hc
        push_neg at hc
        rcases Nat.lt_or_ge (1 + m) r with hc2 | hc2
        · have h3 := hmono (show (⟨1 + m, hm1b⟩ : Fin (barcodeSplits ts δ).length) < ⟨r, hr⟩ by
            rw [Fin.mk_lt_mk]; omega)
          simp [List.get_eq_getElem] at h3
          omega
        · have h4 : r = 1 + m := by omega
          subst h4
          omega
      omega

/-! Claims C8 and C9. -/

theorem range_drop (n a : ℕ) : (List.range n).drop a = List.range' a (n - a) := by
  apply List.ext_getElem
  · simp
  · intro i h1 h2
    simp [List.getElem_drop, List.getElem_range, List.getElem_range']

theorem range'_take (a m k : ℕ) : (List.range' a m).take k = List.range' a (min k m) := by
  apply List.ext_getElem
  · simp
  · intro i h1 h2
    simp [List.getElem_take, List.getElem_range']

theorem range'_split (a k m : ℕ) (h : k ≤ m) :
    List.range' a m = List.range' a k ++ List.range' (a + k) (m - k) := by
  have h2 := List.range'_append a k (m - k) 1
  rw [one_mul] at h2
  rw [show m - k + k = m by omega] at h2
  exact h2.symm

theorem filter_range'_cons {p : ℕ → Bool} :
    ∀ (m a q : ℕ) (qs : List ℕ), (List.range' a m).filter p = q :: qs →
      a ≤ q ∧ q < a + m ∧ p q = true ∧ (∀ j, a ≤ j → j < q → p j = false) ∧
        qs = (List.range' (q + 1) (a + m - (q + 1))).filter p := by
  intro m
  induction m with
  | zero => intro a q qs h; simp at h
  | succ m ih =>
    intro a q qs h
    rw [List.range'_succ, List.filter_cons] at h
    by_cases hp : p a = true
    · rw [if_pos hp] at h
      injection h with h1 h2
      subst h1
      refine ⟨le_refl _, by omega, hp, fun j hj1 hj2 => absurd hj1 (by omega), ?_⟩
      rw [show a + (m + 1) - (a + 1) = m by omega]
      exact h2.symm
    · rw [if_neg hp] at h
      obtain ⟨h1, h2, h3, h4, h5⟩ := ih (a + 1) q qs h
      refine ⟨by omega, by omega, h3, ?_, ?_⟩
      · intro j hj1 hj2
        rcases Nat.eq_or_lt_of_le hj1 with heq | hlt
        · subst heq
          exact Bool.eq_false_iff.mpr hp
        · exact h4 j (by omega) hj2
      · rw [show a + (m + 1) - (q + 1) = a + 1 + m - (q + 1) by omega]
        exact h5

theorem npSplit_flatten_aux (n : ℕ) (p : ℕ → Bool) :
    ∀ (fuel a : ℕ), n - a ≤ fuel → a ≤ n → (a = 0 ∨ p (a - 1) = true) →
      ((npSplitAux (List.range n) a
          (((List.range' a (n - 1 - a)).filter p).map (fun j => j + 1))).filter
            (fun b => decide (1 < b.length))).flatten
        = (List.range' a (n - a)).filter
            (fun i => decide ((0 < i ∧ p (i - 1) = false) ∨ (i + 1 < n ∧ p i = false))) := by
  intro fuel
  induction fuel with
  | zero =>
    intro a hf ha hstart
    have han : a = n := by omega
    subst han
    simp [npSplitAux, range_drop, Nat.sub_self]
  | succ fuel ih =>
    intro a hf ha hstart
    rcases hsplit : (List.range' a (n - 1 - a)).filter p with _ | ⟨q, qs⟩
    · simp only [List.map_nil, npSplitAux, range_drop]
      have hall : ∀ j, a ≤ j → j + 1 < n → p j = false := by
        intro j hj1 hj2
        have hmem : j ∈ List.range' a (n - 1 - a) := by
          rw [List.mem_range'_1]
          omega
        exact Bool.eq_false_iff.mpr (List.filter_eq_nil_iff.mp hsplit j hmem)
      rcases Nat.lt_or_ge (n - a) 2 with hsmall | hbig
      · rw [List.filter_cons, if_neg (by simp [List.length_range']; omega)]
        have hrhs : (List.range' a (n - a)).filter
            (fun i => decide ((0 < i ∧ p (i - 1) = false) ∨ (i + 1 < n ∧ p i = false)))
            = [] := by
          apply List.filter_eq_nil_iff.mpr
          intro i hmem
          rw [List.mem_range'_1] at hmem
          simp only [decide_eq_true_eq, not_or, not_and, Bool.not_eq_false]
          constructor
          · intro hi
            rcases hstart with h0 | hp1
            · exact absurd hi (by omega)
            · have hia : i = a := by omega
              subst hia
              exact hp1
          · intro hi
            exact absurd hi (by omega)
        rw [hrhs]
        simp
      · rw [List.filter_cons, if_pos (by simp [List.length_range']; omega)]
        have hrhs : (List.range' a (n - a)).filter
            (fun i => decide ((0 < i ∧ p (i - 1) = false) ∨ (i + 1 < n ∧ p i = false)))
            = List.range' a (n - a) := by
          apply List.filter_eq_self.mpr
          intro i hmem
          rw [List.mem_range'_1] at hmem
          simp only [decide_eq_true_eq]
          by_cases hin : i + 1 < n
          · exact Or.inr ⟨hin, hall i (by omega) hin⟩
          · exact Or.inl ⟨by omega, hall (i - 1) (by omega) (by omega)⟩
        rw [hrhs]
        simp
    · obtain ⟨hq1, hq2, hpq, hbetween, hqs⟩ := filter_range'_cons _ _ _ _ hsplit
      have haln : a ≤ n - 1 := by
        rcases Nat.lt_or_ge (n - 1) a with hc | hc
        · exfalso
          have hz : n - 1 - a = 0 := by omega
          rw [hz] at hq2
          omega
        · exact hc
      have hqn : q < n - 1 := by omega
      have hqs' : qs = (List.range' (q + 1) (n - 1 - (q + 1))).filter p := by
        rw [hqs]
        congr 2
        omega
      simp only [List.map_cons, npSplitAux]
      rw [range_drop, range'_take, Nat.min_eq_left (by omega : q + 1 - a ≤ n - a)]
      rw [show qs.map (fun j => j + 1) =
          ((List.range' (q + 1) (n - 1 - (q + 1))).filter p).map (fun j => j + 1) from by
        rw [hqs']]
      have hih := ih (q + 1) (by omega) (by omega) (Or.inr (by simpa using hpq))
      rcases Nat.eq_or_lt_of_le hq1 with hqa | hqa
      · subst hqa
        rw [List.filter_cons, if_neg (by simp [List.length_range'])]
        rw [hih]
        have hkeepa : ¬ ((fun i => decide ((0 < i ∧ p (i - 1) = false) ∨
            (i + 1 < n ∧ p i = false))) a = true) := by
          simp only [decide_eq_true_eq, not_or, not_and, Bool.not_eq_false]
          constructor
          · intro hq0
            rcases hstart with h0 | hp1
            · exact absurd hq0 (by omega)
            · exact hp1
          · intro h2
            exact hpq
        rw [show n - a = (n - a - 1) + 1 by omega, List.range'_succ,
          List.filter_cons, if_neg hkeepa]
        rw [show n - (a + 1) = n - a - 1 by omega]
      · rw [List.filter_cons, if_pos (by simp [List.length_range']; omega)]
        have hsplitr : List.range' a (n - a) =
            List.range' a (q + 1 - a) ++ List.range' (q + 1) (n - (q + 1)) := by
          rw [range'_split a (q + 1 - a) (n - a) (by omega)]
          congr 2 <;> omega
        rw [hsplitr, List.filter_append]
        have hblock : (List.range' a (q + 1 - a)).filter
            (fun i => decide ((0 < i ∧ p (i - 1) = false) ∨ (i + 1 < n ∧ p i = false)))
            = List.range' a (q + 1 - a) := by
          apply List.filter_eq_self.mpr
          intro i hmem
          rw [List.mem_range'_1] at hmem
          simp only [decide_eq_true_eq]
          by_cases hiq : i < q
          · exact Or.inr ⟨by omega, hbetween i (by omega) hiq⟩
          · have hieq : i = q := by omega
            subst hieq
            exact Or.inl ⟨by omega, hbetween (i - 1) (by omega) (by omega)⟩
        rw [hblock]
        simp only [List.flatten_cons]
        rw [hih]

theorem npSplit_flatten_kept (harp : List ℤ) :
    ((npSplit (List.range harp.length)
        (((List.range (harp.length - 1)).filter
            (fun j => decide (harp.getD (j + 1) 0 - harp.getD j 0 ≠ 1))).map
          (fun j => j + 1))).filter (fun b => decide (1 < b.length))).flatten
      = keptIndices harp := by
  have h := npSplit_flatten_aux harp.length
    (fun j => decide (harp.getD (j + 1) 0 - harp.getD j 0 ≠ 1)) harp.length 0
    (by omega) (by omega) (Or.inl rfl)
  rw [npSplit]
  rw [show List.range (harp.length - 1) =
      List.range' 0 (harp.length - 1 - 0) from by
    rw [List.range_eq_range', Nat.sub_zero]]
  rw [h, keptIndices]
  rw [show List.range harp.length = List.range' 0 (harp.length - 0) from by
    rw [List.range_eq_range', Nat.sub_zero]]
  apply List.filter_congr
  intro i hmem
  rw [List.mem_range'_1] at hmem
  rw [decide_eq_decide]
  unfold keptIndex
  simp only [decide_eq_false_iff_not, not_not]
  constructor
  · rintro (⟨h1, h2⟩ | ⟨h1, h2⟩)
    · exact Or.inl ⟨h1, by rwa [Nat.sub_add_cancel h1] at h2⟩
    · exact Or.inr ⟨by omega, h2⟩
  · rintro (⟨h1, h2⟩ | ⟨h1, h2⟩)
    · exact Or.inl ⟨h1, by rwa [Nat.sub_add_cancel h1]⟩
    · exact Or.inr ⟨by omega, h2⟩

theorem remove_outliers_eq (st : List ℚ) (harp : List ℤ) :
    remove_outliers st harp =
      if keptIndices harp = [] then Except.error ClockError.emptyConcat
      else if (keptIndices harp).all (fun i => decide (i < st.length)) then
        Except.ok ((keptIndices harp).map (fun i => st.getD i 0),
                   (keptIndices harp).map (fun i => harp.getD i 0))
      else Except.error ClockError.indexError := by
  simp only [remove_outliers]
  have hflat := npSplit_flatten_kept harp
  by_cases hk : keptIndices harp = []
  · rw [if_pos hk]
    rw [hk] at hflat
    have hempty : (npSplit (List.range harp.length)
        (((List.range (harp.length - 1)).filter
            (fun j => decide (harp.getD (j + 1) 0 - harp.getD j 0 ≠ 1))).map
          (fun j => j + 1))).filter (fun b => decide (1 < b.length)) = [] := by
      apply List.eq_nil_iff_forall_not_mem.mpr
      intro b hb
      have hlen := (List.mem_filter.mp hb).2
      have hnil := List.flatten_eq_nil_iff.mp hflat b hb
      rw [hnil] at hlen
      simp at hlen
    rw [hempty]
    rfl
  · rw [if_neg hk]
    have hne : ¬ ((npSplit (List.range harp.length)
        (((List.range (harp.length - 1)).filter
            (fun j => decide (harp.getD (j + 1) 0 - harp.getD j 0 ≠ 1))).map
          (fun j => j + 1))).filter (fun b => decide (1 < b.length))).isEmpty = true := by
      intro hempty
      rw [List.isEmpty_iff] at hempty
      rw [hempty] at hflat
      exact hk hflat.symm
    rw [if_neg hne, hflat]

/-- C9: when no maximal run of consecutive ascending-by-exactly-1 Harp times has
length above 1 (equivalently, no consecutive difference equals 1, which covers
every single-element array), `remove_outliers` raises the `np.concatenate`
error for an empty list of runs instead of returning a pair of empty arrays. -/
theorem c9_remove_outliers_raises (st : List ℚ) (harp : List ℤ) (hne : harp ≠ [])
    (hdiff : ∀ j, j + 1 < harp.length → harp.getD (j + 1) 0 - harp.getD j 0 ≠ 1) :
    remove_outliers st harp = Except.error ClockError.emptyConcat := by
  rw [remove_outliers_eq]
  rw [if_pos ?_]
  apply List.filter_eq_nil_iff.mpr
  intro i hmem
  rw [List.mem_range] at hmem
  simp only [decide_eq_true_eq]
  unfold keptIndex
  rintro (⟨h1, h2⟩ | ⟨h1, h2⟩)
  · refine hdiff (i - 1) (by omega) ?_
    rwa [Nat.sub_add_cancel h1]
  · exact hdiff i h1 h2

/-- Witness for C9 at the single-element array [5]. -/
theorem c9_witness :
    remove_outliers [] [(5 : ℤ)] = Except.error ClockError.emptyConcat :=
  c9_remove_outliers_raises [] [5] (by decide)
    (fun j hj => absurd hj (by simp only [List.length_cons, List.length_nil]; omega))

/-- C8: `remove_outliers` keeps exactly the indices that sit inside a maximal run
of consecutive ascending-by-exactly-1 Harp times of length above 1 (an index is
kept exactly when its predecessor or successor differs from it by exactly 1
inside the array, which characterises membership in such a run), in ascending
order, and filters `start_times` by those same indices; on the synthetic input
`[100, 101, 150, 103]` the kept values are `[100, 101]`, whose consecutive
differences are all exactly 1. -/
theorem c8_remove_outliers_runs (st : List ℚ) (harp : List ℤ)
    (hlen : st.length = harp.length) :
    (keptIndices harp ≠ [] →
      remove_outliers st harp =
        Except.ok ((keptIndices harp).map (fun i => st.getD i 0),
                   (keptIndices harp).map (fun i => harp.getD i 0))) ∧
    remove_outliers [0, 1, 2, 3] [100, 101, 150, 103] =
      Except.ok ([0, 1], [100, 101]) ∧
    List.Chain' (fun a b => b - a = 1) [(100 : ℤ), 101] := by
  refine ⟨?_, by decide, by norm_num [List.chain'_cons, List.chain'_singleton]⟩
  intro hne
  rw [remove_outliers_eq, if_neg hne, if_pos ?_]
  apply List.all_eq_true.mpr
  intro i hmem
  have hmem2 := (List.mem_filter.mp hmem).1
  rw [List.mem_range] at hmem2
  simp only [decide_eq_true_eq]
  omega

/-- Witness for C8 at equal-length inputs [5, 6] / [7, 8]. -/
theorem c8_witness :
    remove_outliers [5, 6] [(7 : ℤ), 8] = Except.ok ([5, 6], [7, 8]) :=
  (c8_remove_outliers_runs [5, 6] [7, 8] rfl).1 (by decide)

/-- Witness for C7 at a concrete ascending transition array with three gaps. -/
theorem c7_witness :
    (get_barcode_edges [(0 : ℚ), 1, 2, 10, 11, 12, 20, 21, 30] 5).length =
      (barcodeSplits [(0 : ℚ), 1, 2, 10, 11, 12, 20, 21, 30] 5).length - 1 :=
  (c7_barcode_segmentation [0, 1, 2, 10, 11, 12, 20, 21, 30] 5 (by decide)).1

/-- Witness for C10 (amended) at the 1-byte buffer [7]. -/
theorem c10_witness :
    _fromraw [7] none none none none none false = Except.error DecodeError.indexError :=
  c10_short_buffer [7] none none none none none false (by decide) (by decide) (Or.inl rfl)

/-! Codec evaluation lemmas. -/

theorem dtypeItemsize_pos {tag esize : ℕ} (h : dtypeItemsize tag = some esize) : 0 < esize := by
  unfold dtypeItemsize at h
  split at h <;> simp_all <;> omega

theorem readLE_append (data extra : List ℕ) (off w : ℕ) (h : off + w ≤ data.length) :
    readLE (data ++ extra) off w = readLE data off w := by
  unfold readLE
  rw [List.drop_append_of_le_length (by omega), List.take_append_of_le_length]
  rw [List.length_drop]
  omega

theorem finishDecode_eq (data : List ℕ) (dtype length : Option ℕ) (cols : Option (List String))
    (kt : Bool) (stride nrows payloadoffset clearedTag esize : ℕ)
    (isDt : Bool) (times : Option (List ℚ))
    (hesize : dtypeItemsize clearedTag = some esize)
    (hoff : payloadoffset + 1 ≤ stride) :
    _finishDecode data dtype length cols kt stride nrows payloadoffset clearedTag isDt times =
      (let ncN := (stride - payloadoffset - 1) / esize
       let tail : Except DecodeError Frame :=
         if nrows ≠ 0 ∧ ncN ≠ 0 ∧
             data.length < payloadoffset + (nrows - 1) * stride + (ncN - 1) * esize + esize then
           Except.error DecodeError.bufferTooSmall
         else
           if kt then
             if ∀ k ∈ (List.range nrows).map (fun i => data.getD (i * stride) 0), k < 4 then
               Except.ok ⟨isDt, times,
                 (List.range nrows).map (fun i =>
                   (List.range ncN).map (fun j =>
                     readLE data (i * stride + payloadoffset + j * esize) esize)),
                 some clearedTag,
                 some ((List.range nrows).map (fun i => data.getD (i * stride) 0)), cols⟩
             else Except.error DecodeError.invalidCategory
           else
             Except.ok ⟨isDt, times,
               (List.range nrows).map (fun i =>
                 (List.range ncN).map (fun j =>
                   readLE data (i * stride + payloadoffset + j * esize) esize)),
               some clearedTag, none, cols⟩
       let lengthChecked : Except DecodeError Frame :=
         match length with
         | some l =>
           if l = ncN then tail else Except.error (DecodeError.lengthMismatch l (ncN : ℤ))
         | none => tail
       match dtype with
       | some d =>
         if d = clearedTag then lengthChecked
         else Except.error (DecodeError.dtypeMismatch d clearedTag)
       | none => lengthChecked) := by
  simp only [_finishDecode, hesize]
  have hps : ((stride : ℤ) - payloadoffset - 1) = ((stride - payloadoffset - 1 : ℕ) : ℤ) := by
    omega
  rw [hps, ← Int.ofNat_fdiv]
  rw [if_neg (not_lt.mpr (Int.natCast_nonneg ((stride - payloadoffset - 1) / esize)))]
  rw [Int.toNat_ofNat]
  simp only [Nat.cast_inj]

theorem fromrawBody_eq (data : List ℕ) (dtype length : Option ℕ)
    (cols : Option (List String)) (epoch : Option ℚ) (kt : Bool)
    (h5 : 5 ≤ data.length)
    (hts : bufTimestamped data → bufRows data = 0 ∨
        (5 + (bufRows data - 1) * bufStride data + 4 ≤ data.length ∧
         9 + (bufRows data - 1) * bufStride data + 2 ≤ data.length)) :
    _fromrawBody data dtype length cols epoch kt =
      if bufTimestamped data then
        match epoch with
        | some e =>
          _finishDecode data dtype length cols kt (bufStride data) (bufRows data) 11
            (bufClearedTag data) true (some ((decodedTimes data).map (fun t => e + t)))
        | none =>
          _finishDecode data dtype length cols kt (bufStride data) (bufRows data) 11
            (bufClearedTag data) false (some (decodedTimes data))
      else
        _finishDecode data dtype length cols kt (bufStride data) (bufRows data) 5
          (bufClearedTag data) false none := by
  simp only [_fromrawBody]
  rw [if_neg (by omega), if_neg (by omega)]
  by_cases ht : bufTimestamped data
  · rw [if_pos ht]
    have ht' : data.getD 4 0 &&& 16 ≠ 0 := ht
    rw [if_pos ht']
    have hts' := hts ht
    unfold bufRows bufStride at hts'
    rw [if_neg (by
      rintro ⟨hx, hy⟩
      rcases hts' with h0 | ⟨ha, hb⟩ <;> omega)]
    rw [if_neg (by
      rintro ⟨hx, hy⟩
      rcases hts' with h0 | ⟨ha, hb⟩ <;> omega)]
    have htag : bufClearedTag data = data.getD 4 0 &&& 239 := by
      unfold bufClearedTag
      rw [if_pos ht]
    have htimes : decodedTimes data = (List.range (data.length / (data.getD 1 0 + 2))).map
        (fun i => (readLE data (i * (data.getD 1 0 + 2) + 9) 2 : ℚ) * SECONDS_PER_TICK +
          (readLE data (i * (data.getD 1 0 + 2) + 5) 4 : ℚ)) := by
      unfold decodedTimes bufRows bufStride
      rfl
    rw [htag, htimes]
    cases epoch with
    | some e => rfl
    | none => rfl
  · rw [if_neg ht]
    have ht' : ¬ data.getD 4 0 &&& 16 ≠ 0 := ht
    rw [if_neg ht']
    have htag : bufClearedTag data = data.getD 4 0 := by
      unfold bufClearedTag
      rw [if_neg ht]
    rw [htag]
    rfl

theorem fromraw_eq_body (data : List ℕ) (address dtype length : Option ℕ)
    (cols : Option (List String)) (epoch : Option ℚ) (kt : Bool)
    (h0 : data.length ≠ 0)
    (haddr : address = none ∨ (2 < data.length ∧ address = some (data.getD 2 0))) :
    _fromraw data address dtype length cols epoch kt =
      _fromrawBody data dtype length cols epoch kt := by
  unfold _fromraw
  rw [if_neg h0]
  rcases haddr with rfl | ⟨h2, rfl⟩
  · rfl
  · dsimp only
    rw [if_neg (by omega), if_neg (by simp)]

theorem fromraw_addr_mismatch (data : List ℕ) (dtype length : Option ℕ)
    (cols : Option (List String)) (epoch : Option ℚ) (kt : Bool) (a : ℕ)
    (h0 : data.length ≠ 0) (h2 : 2 < data.length) (ha : a ≠ data.getD 2 0) :
    _fromraw data (some a) dtype length cols epoch kt =
      Except.error (DecodeError.addressMismatch a (data.getD 2 0)) := by
  unfold _fromraw
  rw [if_neg h0]
  dsimp only
  rw [if_neg (by omega), if_pos ha]

theorem payload_bound (stride nrows payloadoffset esize : ℕ)
    (hoff : payloadoffset + 1 ≤ stride) (hr : nrows ≠ 0)
    (hc : (stride - payloadoffset - 1) / esize ≠ 0) :
    payloadoffset + (nrows - 1) * stride +
        ((stride - payloadoffset - 1) / esize - 1) * esize + esize ≤ nrows * stride := by
  obtain ⟨r, rfl⟩ : ∃ r, nrows = r + 1 := ⟨nrows - 1, by omega⟩
  obtain ⟨m, hm⟩ : ∃ m, (stride - payloadoffset - 1) / esize = m + 1 :=
    ⟨(stride - payloadoffset - 1) / esize - 1, by
      have hp := Nat.pos_of_ne_zero hc
      omega⟩
  have h1 : (stride - payloadoffset - 1) / esize * esize ≤ stride - payloadoffset - 1 :=
    Nat.div_mul_le_self _ _
  rw [hm] at h1 ⊢
  have h2 : (m + 1) * esize = m * esize + esize := by ring
  have h3 : (r + 1) * stride = r * stride + stride := by ring
  rw [h2] at h1
  simp only [Nat.add_sub_cancel]
  rw [h3]
  omega

theorem wfb_len5 (data : List ℕ) (h : WellFormedBuffer data) : 5 ≤ data.length := by
  obtain ⟨hr1, hmul, hoff, _, _⟩ := h
  have hstr : 6 ≤ bufStride data := by
    unfold bufPayloadOffset at hoff
    by_cases ht : bufTimestamped data
    · rw [if_pos ht] at hoff; omega
    · rw [if_neg ht] at hoff; omega
  have hle : bufStride data ≤ bufRows data * bufStride data :=
    Nat.le_mul_of_pos_left _ (by omega)
  omega

theorem wfb_ts_bounds (data : List ℕ) (h : WellFormedBuffer data) :
    bufTimestamped data → bufRows data = 0 ∨
      (5 + (bufRows data - 1) * bufStride data + 4 ≤ data.length ∧
       9 + (bufRows data - 1) * bufStride data + 2 ≤ data.length) := by
  intro ht
  obtain ⟨hr1, hmul, hoff, _, _⟩ := h
  unfold bufPayloadOffset at hoff
  rw [if_pos ht] at hoff
  obtain ⟨r, hr⟩ : ∃ r, bufRows data = r + 1 := ⟨bufRows data - 1, by omega⟩
  right
  rw [hr] at hmul ⊢
  have h3 : (r + 1) * bufStride data = r * bufStride data + bufStride data := by ring
  rw [h3] at hmul
  simp only [Nat.add_sub_cancel]
  omega

theorem fromraw_wf_to_finish (data : List ℕ) (address dtype length : Option ℕ)
    (cols : Option (List String)) (epoch : Option ℚ) (kt : Bool)
    (h : WellFormedBuffer data)
    (haddr : address = none ∨ address = some (data.getD 2 0)) :
    _fromraw data address dtype length cols epoch kt =
      _finishDecode data dtype length cols kt (bufStride data) (bufRows data)
        (bufPayloadOffset data) (bufClearedTag data) (decodedIsDt data epoch)
        (decodedTimesArg data epoch) := by
  have h5 := wfb_len5 data h
  rw [fromraw_eq_body data address dtype length cols epoch kt (by omega)
    (by rcases haddr with rfl | rfl
        · exact Or.inl rfl
        · exact Or.inr ⟨by omega, rfl⟩)]
  rw [fromrawBody_eq data dtype length cols epoch kt h5 (wfb_ts_bounds data h)]
  by_cases ht : bufTimestamped data
  · have hpo : bufPayloadOffset data = 11 := by
      unfold bufPayloadOffset
      rw [if_pos ht]
    rw [if_pos ht, hpo]
    unfold decodedIsDt decodedTimesArg
    rw [if_pos ht, if_pos ht]
    cases epoch with
    | some e => rfl
    | none => rfl
  · have hpo : bufPayloadOffset data = 5 := by
      unfold bufPayloadOffset
      rw [if_neg ht]
    rw [if_neg ht, hpo]
    unfold decodedIsDt decodedTimesArg
    rw [if_neg ht, if_neg ht]

theorem decodedFrame_eq (data : List ℕ) (cols : Option (List String)) (epoch : Option ℚ)
    (kt : Bool) (esize : ℕ) (hesize : dtypeItemsize (bufClearedTag data) = some esize) :
    decodedFrame data cols epoch kt =
      ⟨decodedIsDt data epoch, decodedTimesArg data epoch,
       (List.range (bufRows data)).map (fun i =>
         (List.range ((bufStride data - bufPayloadOffset data - 1) / esize)).map (fun j =>
           readLE data (i * bufStride data + bufPayloadOffset data + j * esize) esize)),
       some (bufClearedTag data),
       if kt then some ((List.range (bufRows data)).map (fun i => data.getD (i * bufStride data) 0))
       else none,
       cols⟩ := by
  have hes : bufESize data = esize := by
    unfold bufESize
    rw [hesize]
    rfl
  unfold decodedFrame decodedIsDt decodedTimesArg decodedPayload decodedKinds decodedNCols
  rw [hes]
  by_cases ht : bufTimestamped data
  · rw [if_pos ht, if_pos ht, if_pos ht]
    cases epoch with
    | some e => rfl
    | none => rfl
  · rw [if_neg ht, if_neg ht, if_neg ht]

theorem fromraw_wf_dtype_mismatch (data : List ℕ) (address length : Option ℕ)
    (cols : Option (List String)) (epoch : Option ℚ) (kt : Bool) (d esize : ℕ)
    (h : WellFormedBuffer data)
    (haddr : address = none ∨ address = some (data.getD 2 0))
    (hesize : dtypeItemsize (bufClearedTag data) = some esize)
    (hd : d ≠ bufClearedTag data) :
    _fromraw data address (some d) length cols epoch kt =
      Except.error (DecodeError.dtypeMismatch d (bufClearedTag data)) := by
  rw [fromraw_wf_to_finish data address (some d) length cols epoch kt h haddr]
  rw [finishDecode_eq _ _ _ _ _ _ _ _ _ esize _ _ hesize h.2.2.1]
  dsimp only
  rw [if_neg hd]

theorem fromraw_wf_length_mismatch (data : List ℕ) (address dtype : Option ℕ)
    (cols : Option (List String)) (epoch : Option ℚ) (kt : Bool) (l esize : ℕ)
    (h : WellFormedBuffer data)
    (haddr : address = none ∨ address = some (data.getD 2 0))
    (hesize : dtypeItemsize (bufClearedTag data) = some esize)
    (hdty : dtype = none ∨ dtype = some (bufClearedTag data))
    (hl : l ≠ (bufStride data - bufPayloadOffset data - 1) / esize) :
    _fromraw data address dtype (some l) cols epoch kt =
      Except.error (DecodeError.lengthMismatch l
        (((bufStride data - bufPayloadOffset data - 1) / esize : ℕ) : ℤ)) := by
  rw [fromraw_wf_to_finish data address dtype (some l) cols epoch kt h haddr]
  rw [finishDecode_eq _ _ _ _ _ _ _ _ _ esize _ _ hesize h.2.2.1]
  rcases hdty with rfl | rfl
  · dsimp only
    rw [if_neg hl]
  · dsimp only
    rw [if_pos rfl, if_neg hl]

theorem fromraw_wf_ok (data : List ℕ) (address dtype length : Option ℕ)
    (cols : Option (List String)) (epoch : Option ℚ) (kt : Bool) (esize : ℕ)
    (h : WellFormedBuffer data)
    (haddr : address = none ∨ address = some (data.getD 2 0))
    (hesize : dtypeItemsize (bufClearedTag data) = some esize)
    (hdty : dtype = none ∨ dtype = some (bufClearedTag data))
    (hlen : length = none ∨
      length = some ((bufStride data - bufPayloadOffset data - 1) / esize)) :
    _fromraw data address dtype length cols epoch kt =
      Except.ok (decodedFrame data cols epoch kt) := by
  obtain ⟨hr1, hmul, hoffb, htag, hkinds⟩ := h
  rw [fromraw_wf_to_finish data address dtype length cols epoch kt
    ⟨hr1, hmul, hoffb, htag, hkinds⟩ haddr]
  rw [finishDecode_eq _ _ _ _ _ _ _ _ _ esize _ _ hesize hoffb]
  have htail_neg : ¬ (bufRows data ≠ 0 ∧
      (bufStride data - bufPayloadOffset data - 1) / esize ≠ 0 ∧
      data.length < bufPayloadOffset data + (bufRows data - 1) * bufStride data +
        ((bufStride data - bufPayloadOffset data - 1) / esize - 1) * esize + esize) := by
    rintro ⟨hx, hy, hz⟩
    have hb := payload_bound (bufStride data) (bufRows data) (bufPayloadOffset data)
      esize hoffb hx hy
    omega
  have hkind4 : ∀ k ∈ (List.range (bufRows data)).map
      (fun i => data.getD (i * bufStride data) 0), k < 4 := by
    intro k hk
    rw [List.mem_map] at hk
    obtain ⟨i, hi, rfl⟩ := hk
    exact hkinds i (List.mem_range.mp hi)
  rw [decodedFrame_eq data cols epoch kt esize hesize]
  rcases hdty with rfl | rfl
  · rcases hlen with rfl | rfl
    · dsimp only
      rw [if_neg htail_neg, if_pos hkind4]
      cases kt <;> rfl
    · dsimp only
      rw [if_pos rfl, if_neg htail_neg, if_pos hkind4]
      cases kt <;> rfl
  · rcases hlen with rfl | rfl
    · dsimp only
      rw [if_pos rfl, if_neg htail_neg, if_pos hkind4]
      cases kt <;> rfl
    · dsimp only
      rw [if_pos rfl, if_pos rfl, if_neg htail_neg, if_pos hkind4]
      cases kt <;> rfl

/-! Claim C4. -/

/-- C4: on a well-formed buffer, decoding with a mismatching expected address,
dtype, or payload length always raises the corresponding validation error
carrying both the expected and the actual value (the address check wins when it
fires; the dtype check is reached when the address expectation is absent or
matching; the length check when dtype also passes), and decoding with no
expectations supplied never raises. -/
theorem c4_validation (data : List ℕ) (h : WellFormedBuffer data) :
    (∀ a, a ≠ data.getD 2 0 → ∀ dtype length epoch kt,
        _fromraw data (some a) dtype length none epoch kt =
          Except.error (DecodeError.addressMismatch a (data.getD 2 0))) ∧
    (∀ address, (address = none ∨ address = some (data.getD 2 0)) →
      ∀ d, d ≠ bufClearedTag data → ∀ length epoch kt,
        _fromraw data address (some d) length none epoch kt =
          Except.error (DecodeError.dtypeMismatch d (bufClearedTag data))) ∧
    (∀ address, (address = none ∨ address = some (data.getD 2 0)) →
      ∀ dtype, (dtype = none ∨ dtype = some (bufClearedTag data)) →
      ∀ l, l ≠ decodedNCols data → ∀ epoch kt,
        _fromraw data address dtype (some l) none epoch kt =
          Except.error (DecodeError.lengthMismatch l (decodedNCols data : ℤ))) ∧
    (∀ epoch kt, _fromraw data none none none none epoch kt =
        Except.ok (decodedFrame data none epoch kt)) := by
  obtain ⟨esize, hesize⟩ := Option.isSome_iff_exists.mp h.2.2.2.1
  have hes : (bufStride data - bufPayloadOffset data - 1) / esize = decodedNCols data := by
    unfold decodedNCols bufESize
    rw [hesize]
    rfl
  have h5 := wfb_len5 data h
  refine ⟨?_, ?_, ?_, ?_⟩
  · intro a ha dtype length epoch kt
    exact fromraw_addr_mismatch data dtype length none epoch kt a (by omega) (by omega) ha
  · intro address haddr d hd length epoch kt
    exact fromraw_wf_dtype_mismatch data address length none epoch kt d esize h haddr hesize hd
  · intro address haddr dtype hdty l hl epoch kt
    have h2 := fromraw_wf_length_mismatch data address dtype none epoch kt l esize h haddr
      hesize hdty (by rw [hes]; exact hl)
    rw [hes] at h2
    exact h2
  · intro epoch kt
    exact fromraw_wf_ok data none none none none epoch kt esize h (Or.inl rfl) hesize
      (Or.inl rfl) (Or.inl rfl)

/-- Witness for C4 at the concrete one-row buffer [1, 5, 3, 255, 1, 42, 0]. -/
theorem c4_witness :
    _fromraw [1, 5, 3, 255, 1, 42, 0] (some 9) none none none none false =
      Except.error (DecodeError.addressMismatch 9 ([1, 5, 3, 255, 1, 42, 0].getD 2 0)) ∧
    _fromraw [1, 5, 3, 255, 1, 42, 0] none (some 2) none none none false =
      Except.error (DecodeError.dtypeMismatch 2 (bufClearedTag [1, 5, 3, 255, 1, 42, 0])) ∧
    _fromraw [1, 5, 3, 255, 1, 42, 0] none none (some 7) none none false =
      Except.error (DecodeError.lengthMismatch 7
        (decodedNCols [1, 5, 3, 255, 1, 42, 0] : ℤ)) ∧
    _fromraw [1, 5, 3, 255, 1, 42, 0] none none none none none false =
      Except.ok (decodedFrame [1, 5, 3, 255, 1, 42, 0] none none false) := by
  have h := c4_validation [1, 5, 3, 255, 1, 42, 0] (by decide)
  exact ⟨h.1 9 (by decide) none none none false,
    h.2.1 none (Or.inl rfl) 2 (by decide) none none false,
    h.2.2.1 none (Or.inl rfl) none (Or.inl rfl) 7 (by decide) none false,
    h.2.2.2 none false⟩

/-! Claim C6. -/

theorem finishDecode_ok_rows (data : List ℕ) (dtype length : Option ℕ)
    (cols : Option (List String)) (kt : Bool) (stride nrows payloadoffset clearedTag : ℕ)
    (isDt : Bool) (times : Option (List ℚ)) (f : Frame)
    (h : _finishDecode data dtype length cols kt stride nrows payloadoffset clearedTag
        isDt times = Except.ok f) :
    f.payload.length = nrows := by
  simp only [_finishDecode] at h
  repeat' split at h
  all_goals first
    | exact Except.noConfusion h
    | (injection h with h2; rw [← h2]; simp)

theorem fromrawBody_ok_rows (data : List ℕ) (dtype length : Option ℕ)
    (cols : Option (List String)) (epoch : Option ℚ) (kt : Bool) (f : Frame)
    (h : _fromrawBody data dtype length cols epoch kt = Except.ok f) :
    f.payload.length = data.length / (data.getD 1 0 + 2) := by
  simp only [_fromrawBody] at h
  repeat' split at h
  all_goals first
    | exact Except.noConfusion h
    | exact finishDecode_ok_rows _ _ _ _ _ _ _ _ _ _ _ _ h

theorem finishDecode_append (data extra : List ℕ) (dtype length : Option ℕ)
    (cols : Option (List String)) (kt : Bool) (stride nrows payloadoffset clearedTag : ℕ)
    (isDt : Bool) (times : Option (List ℚ))
    (hlen : nrows * stride = data.length) :
    _finishDecode (data ++ extra) dtype length cols kt stride nrows payloadoffset
        clearedTag isDt times =
      _finishDecode data dtype length cols kt stride nrows payloadoffset
        clearedTag isDt times := by
  cases hE : dtypeItemsize clearedTag with
  | none => simp only [_finishDecode, hE]
  | some esize =>
    have hpos := dtypeItemsize_pos hE
    by_cases hoff : payloadoffset + 1 ≤ stride
    · rw [finishDecode_eq data dtype length cols kt stride nrows payloadoffset clearedTag
        esize isDt times hE hoff,
        finishDecode_eq (data ++ extra) dtype length cols kt stride nrows payloadoffset
        clearedTag esize isDt times hE hoff]
      dsimp only
      have hrows_bound : ∀ i, i < nrows → i * stride + stride ≤ data.length := by
        intro i hi
        have h1 : i + 1 ≤ nrows := hi
        have h2 : (i + 1) * stride ≤ nrows * stride := Nat.mul_le_mul_right _ h1
        have h3 : (i + 1) * stride = i * stride + stride := by ring
        omega
      have hpay : (List.range nrows).map (fun i =>
            (List.range ((stride - payloadoffset - 1) / esize)).map (fun j =>
              readLE (data ++ extra) (i * stride + payloadoffset + j * esize) esize)) =
          (List.range nrows).map (fun i =>
            (List.range ((stride - payloadoffset - 1) / esize)).map (fun j =>
              readLE data (i * stride + payloadoffset + j * esize) esize)) := by
        apply List.map_congr_left
        intro i hi
        apply List.map_congr_left
        intro j hj
        apply readLE_append
        rw [List.mem_range] at hi hj
        have hjb : (j + 1) * esize ≤ (stride - payloadoffset - 1) / esize * esize :=
          Nat.mul_le_mul_right _ hj
        have hdm : (stride - payloadoffset - 1) / esize * esize ≤ stride - payloadoffset - 1 :=
          Nat.div_mul_le_self _ _
        have hrb := hrows_bound i hi
        have hj3 : (j + 1) * esize = j * esize + esize := by ring
        omega
      have hkindseq : (List.range nrows).map (fun i => (data ++ extra).getD (i * stride) 0) =
          (List.range nrows).map (fun i => data.getD (i * stride) 0) := by
        apply List.map_congr_left
        intro i hi
        apply List.getD_append
        rw [List.mem_range] at hi
        have hrb := hrows_bound i hi
        omega
      rw [hpay, hkindseq]
      by_cases hc : nrows ≠ 0 ∧ (stride - payloadoffset - 1) / esize ≠ 0
      · have hB := payload_bound stride nrows payloadoffset esize hoff hc.1 hc.2
        have hlen2 : data.length ≤ (data ++ extra).length := by simp
        have hc1 : ¬ (nrows ≠ 0 ∧ (stride - payloadoffset - 1) / esize ≠ 0 ∧
            (data ++ extra).length < payloadoffset + (nrows - 1) * stride +
              ((stride - payloadoffset - 1) / esize - 1) * esize + esize) := by
          rintro ⟨hx, hy, hz⟩
          omega
        have hc2 : ¬ (nrows ≠ 0 ∧ (stride - payloadoffset - 1) / esize ≠ 0 ∧
            data.length < payloadoffset + (nrows - 1) * stride +
              ((stride - payloadoffset - 1) / esize - 1) * esize + esize) := by
          rintro ⟨hx, hy, hz⟩
          omega
        rw [if_neg hc1, if_neg hc2]
      · have hc1 : ¬ (nrows ≠ 0 ∧ (stride - payloadoffset - 1) / esize ≠ 0 ∧
            (data ++ extra).length < payloadoffset + (nrows - 1) * stride +
              ((stride - payloadoffset - 1) / esize - 1) * esize + esize) := by
          rintro ⟨hx, hy, hz⟩
          exact hc ⟨hx, hy⟩
        have hc2 : ¬ (nrows ≠ 0 ∧ (stride - payloadoffset - 1) / esize ≠ 0 ∧
            data.length < payloadoffset + (nrows - 1) * stride +
              ((stride - payloadoffset - 1) / esize - 1) * esize + esize) := by
          rintro ⟨hx, hy, hz⟩
          exact hc ⟨hx, hy⟩
        rw [if_neg hc1, if_neg hc2]
    · have hneg : Int.fdiv ((stride : ℤ) - payloadoffset - 1) (esize : ℤ) < 0 :=
        Int.fdiv_neg' (by omega) (by exact_mod_cast hpos)
      simp only [_finishDecode, hE]
      rw [if_pos hneg, if_pos hneg]

theorem fromrawBody_append (data extra : List ℕ) (dtype length : Option ℕ)
    (cols : Option (List String)) (epoch : Option ℚ) (kt : Bool)
    (hmul : data.length = bufRows data * bufStride data)
    (hr1 : 1 ≤ bufRows data)
    (h5 : 5 ≤ data.length)
    (hextra : extra.length < bufStride data)
    (hts : bufTimestamped data → 11 ≤ bufStride data) :
    _fromrawBody (data ++ extra) dtype length cols epoch kt =
      _fromrawBody data dtype length cols epoch kt := by
  have hlenA : (data ++ extra).length = data.length + extra.length := List.length_append _ _
  have hg1 : (data ++ extra).getD 1 0 = data.getD 1 0 :=
    List.getD_append _ _ _ _ (by omega)
  have hg4 : (data ++ extra).getD 4 0 = data.getD 4 0 :=
    List.getD_append _ _ _ _ (by omega)
  have hspos : 0 < data.getD 1 0 + 2 := by omega
  have hnr : (data ++ extra).length / (data.getD 1 0 + 2) =
      data.length / (data.getD 1 0 + 2) := by
    rw [hlenA, hmul]
    unfold bufRows bufStride
    rw [Nat.mul_comm, Nat.mul_add_div hspos, Nat.mul_div_cancel_left _ hspos]
    have he0 : extra.length / (data.getD 1 0 + 2) = 0 :=
      Nat.div_eq_of_lt (by unfold bufStride at hextra; omega)
    omega
  have hrows_raw : data.length / (data.getD 1 0 + 2) = bufRows data := rfl
  have hs_raw : data.getD 1 0 + 2 = bufStride data := rfl
  simp only [_fromrawBody]
  rw [if_neg (show ¬ (data ++ extra).length ≤ 1 by omega),
    if_neg (show ¬ data.length ≤ 1 by omega), hg1,
    if_neg (show ¬ (data ++ extra).length ≤ 4 by omega),
    if_neg (show ¬ data.length ≤ 4 by omega), hg4, hnr]
  by_cases ht : data.getD 4 0 &&& 16 ≠ 0
  · rw [if_pos ht, if_pos ht]
    have hst : 11 ≤ data.getD 1 0 + 2 := by
      rw [hs_raw]
      exact hts ht
    obtain ⟨r, hrr⟩ : ∃ r, data.length / (data.getD 1 0 + 2) = r + 1 := by
      rw [hrows_raw]
      exact ⟨bufRows data - 1, by omega⟩
    have hbound : 11 + (data.length / (data.getD 1 0 + 2) - 1) * (data.getD 1 0 + 2) ≤
        data.length := by
      rw [hrr, hmul]
      unfold bufRows bufStride
      rw [hrr]
      have hm : (r + 1) * (data.getD 1 0 + 2) = r * (data.getD 1 0 + 2) + (data.getD 1 0 + 2) := by
        ring
      simp only [Nat.add_sub_cancel]
      omega
    have hc1 : ¬ (data.length / (data.getD 1 0 + 2) ≠ 0 ∧ (data ++ extra).length <
        5 + (data.length / (data.getD 1 0 + 2) - 1) * (data.getD 1 0 + 2) + 4) := by
      rintro ⟨hx, hy⟩
      omega
    have hc2 : ¬ (data.length / (data.getD 1 0 + 2) ≠ 0 ∧ data.length <
        5 + (data.length / (data.getD 1 0 + 2) - 1) * (data.getD 1 0 + 2) + 4) := by
      rintro ⟨hx, hy⟩
      omega
    have hc3 : ¬ (data.length / (data.getD 1 0 + 2) ≠ 0 ∧ (data ++ extra).length <
        9 + (data.length / (data.getD 1 0 + 2) - 1) * (data.getD 1 0 + 2) + 2) := by
      rintro ⟨hx, hy⟩
      omega
    have hc4 : ¬ (data.length / (data.getD 1 0 + 2) ≠ 0 ∧ data.length <
        9 + (data.length / (data.getD 1 0 + 2) - 1) * (data.getD 1 0 + 2) + 2) := by
      rintro ⟨hx, hy⟩
      omega
    rw [if_neg hc1, if_neg hc2, if_neg hc3, if_neg hc4]
    have hrows_bound : ∀ i, i < data.length / (data.getD 1 0 + 2) →
        i * (data.getD 1 0 + 2) + (data.getD 1 0 + 2) ≤ data.length := by
      intro i hi
      have h1 : i + 1 ≤ data.length / (data.getD 1 0 + 2) := hi
      have h2 : (i + 1) * (data.getD 1 0 + 2) ≤
          data.length / (data.getD 1 0 + 2) * (data.getD 1 0 + 2) :=
        Nat.mul_le_mul_right _ h1
      have h3 : data.length / (data.getD 1 0 + 2) * (data.getD 1 0 + 2) ≤ data.length :=
        Nat.div_mul_le_self _ _
      have h4 : (i + 1) * (data.getD 1 0 + 2) = i * (data.getD 1 0 + 2) + (data.getD 1 0 + 2) := by
        ring
      omega
    have htimes : (List.range (data.length / (data.getD 1 0 + 2))).map (fun i =>
          (readLE (data ++ extra) (i * (data.getD 1 0 + 2) + 9) 2 : ℚ) * SECONDS_PER_TICK +
            (readLE (data ++ extra) (i * (data.getD 1 0 + 2) + 5) 4 : ℚ)) =
        (List.range (data.length / (data.getD 1 0 + 2))).map (fun i =>
          (readLE data (i * (data.getD 1 0 + 2) + 9) 2 : ℚ) * SECONDS_PER_TICK +
            (readLE data (i * (data.getD 1 0 + 2) + 5) 4 : ℚ)) := by
      apply List.map_congr_left
      intro i hi
      rw [List.mem_range] at hi
      have hb := hrows_bound i hi
      rw [readLE_append data extra _ 2 (by omega), readLE_append data extra _ 4 (by omega)]
    rw [htimes]
    have hfin := finishDecode_append data extra dtype length cols kt
      (data.getD 1 0 + 2) (data.length / (data.getD 1 0 + 2)) 11 (data.getD 4 0 &&& 239)
    cases epoch with
    | some e => exact hfin true _ hmul.symm
    | none => exact hfin false _ hmul.symm
  · rw [if_neg ht, if_neg ht]
    exact finishDecode_append data extra dtype length cols kt _ _ 5 _ false none hmul.symm

/-- C6: the decoder derives `stride = buffer[1] + 2` and keeps exactly
`len // stride` rows: (a) every successful decode of a non-empty buffer returns
exactly `len // stride` rows, for any expectations; (b) appending up to
`stride - 1` trailing bytes to an exact-multiple buffer never changes the
outcome of decoding (same frame, or the identical error), so the trailing bytes
are dropped silently and never themselves raise; the side conditions require the
stride to cover the header read at offset 4 and, when timestamped, the
timestamp fields. -/
theorem c6_silent_truncation (data : List ℕ) (hne : data ≠ []) :
    (∀ address dtype length cols epoch kt f,
        _fromraw data address dtype length cols epoch kt = Except.ok f →
        f.payload.length = data.length / bufStride data) ∧
    (∀ extra : List ℕ,
      data.length = bufRows data * bufStride data →
      1 ≤ bufRows data →
      5 ≤ data.length →
      extra.length < bufStride data →
      (bufTimestamped data → 11 ≤ bufStride data) →
      ∀ address dtype length cols epoch kt,
        _fromraw (data ++ extra) address dtype length cols epoch kt =
          _fromraw data address dtype length cols epoch kt) := by
  constructor
  · intro address dtype length cols epoch kt f hok
    unfold _fromraw at hok
    rw [if_neg (show ¬ data.length = 0 from fun h => hne (List.length_eq_zero.mp h))] at hok
    cases address with
    | none => exact fromrawBody_ok_rows data dtype length cols epoch kt f hok
    | some a =>
      dsimp only at hok
      split at hok
      · exact Except.noConfusion hok
      · split at hok
        · exact Except.noConfusion hok
        · exact fromrawBody_ok_rows data dtype length cols epoch kt f hok
  · intro extra hmul hr1 h5 hextra hts address dtype length cols epoch kt
    have hlenA : (data ++ extra).length = data.length + extra.length := List.length_append _ _
    have h0' : ¬ (data ++ extra).length = 0 := by omega
    have h0 : ¬ data.length = 0 := by omega
    have hg2 : (data ++ extra).getD 2 0 = data.getD 2 0 :=
      List.getD_append _ _ _ _ (by omega)
    unfold _fromraw
    rw [if_neg h0', if_neg h0]
    cases address with
    | none =>
      exact fromrawBody_append data extra dtype length cols epoch kt hmul hr1 h5 hextra hts
    | some a =>
      dsimp only
      rw [hg2, if_neg (show ¬ (data ++ extra).length ≤ 2 by omega),
        if_neg (show ¬ data.length ≤ 2 by omega)]
      by_cases ha : a ≠ data.getD 2 0
      · rw [if_pos ha, if_pos ha]
      · rw [if_neg ha, if_neg ha]
        exact fromrawBody_append data extra dtype length cols epoch kt hmul hr1 h5 hextra hts

/-- Witness for C6 at the one-row buffer [1, 5, 3, 255, 1, 42, 0] padded with
two trailing bytes. -/
theorem c6_witness :
    (decodedFrame [1, 5, 3, 255, 1, 42, 0] none none false).payload.length =
        [1, 5, 3, 255, 1, 42, 0].length / bufStride [1, 5, 3, 255, 1, 42, 0] ∧
    _fromraw ([1, 5, 3, 255, 1, 42, 0] ++ [9, 9]) none none none none none false =
      _fromraw [1, 5, 3, 255, 1, 42, 0] none none none none none false := by
  have h := c6_silent_truncation [1, 5, 3, 255, 1, 42, 0] (by decide)
  constructor
  · exact h.1 none none none none none false _ (by decide)
  · exact h.2 [9, 9] (by decide) (by decide) (by decide) (by decide)
      (fun ht => absurd ht (by decide)) none none none none none false

/-! Claim C1: byte-level lemmas. -/

theorem leBytes_succ (n v : ℕ) :
    leBytes (n + 1) v = v % 256 :: leBytes n (v / 256) := by
  unfold leBytes
  rw [List.range_succ_eq_map]
  simp only [List.map_cons, List.map_map]
  congr 1
  · simp
  · apply List.map_congr_left
    intro k _
    simp only [Function.comp]
    rw [Nat.div_div_eq_div_mul, ← pow_succ']

theorem leBytes_fromLEBytes : ∀ (l : List ℕ), (∀ b ∈ l, b < 256) →
    leBytes l.length (fromLEBytes l) = l := by
  intro l
  induction l with
  | nil => intro _; rfl
  | cons b rest ih =>
    intro h
    have hb : b < 256 := h b (by simp)
    rw [List.length_cons, leBytes_succ]
    have h1 : fromLEBytes (b :: rest) % 256 = b := by
      show (b + 256 * fromLEBytes rest) % 256 = b
      rw [Nat.add_mul_mod_self_left, Nat.mod_eq_of_lt hb]
    have h2 : fromLEBytes (b :: rest) / 256 = fromLEBytes rest := by
      show (b + 256 * fromLEBytes rest) / 256 = _
      rw [Nat.add_mul_div_left _ _ (by norm_num), Nat.div_eq_of_lt hb]
      omega
    rw [h1, h2, ih (fun x hx => h x (by simp [hx]))]

theorem fromLEBytes_lt : ∀ (l : List ℕ), (∀ b ∈ l, b < 256) →
    fromLEBytes l < 256 ^ l.length := by
  intro l
  induction l with
  | nil => intro _; norm_num [fromLEBytes]
  | cons b rest ih =>
    intro h
    have hb : b < 256 := h b (by simp)
    have hr := ih (fun x hx => h x (by simp [hx]))
    show b + 256 * fromLEBytes rest < 256 ^ (rest.length + 1)
    rw [pow_succ']
    omega

theorem flatten_chunks {α : Type} (data : List α) :
    ∀ (n a s : ℕ), a + n * s ≤ data.length →
      ((List.range n).map (fun i => (data.drop (a + i * s)).take s)).flatten =
        (data.drop a).take (n * s) := by
  intro n
  induction n with
  | zero => intro a s _; simp
  | succ n ih =>
    intro a s h
    rw [List.range_succ_eq_map]
    simp only [List.map_cons, List.map_map, List.flatten_cons]
    have htail : (List.range n).map ((fun i => (data.drop (a + i * s)).take s) ∘ Nat.succ) =
        (List.range n).map (fun i => (data.drop ((a + s) + i * s)).take s) := by
      apply List.map_congr_left
      intro k _
      simp only [Function.comp]
      have hd : Nat.succ k * s = k * s + s := by
        rw [Nat.succ_mul]
      have hidx : a + Nat.succ k * s = a + s + k * s := by omega
      rw [hidx]
    have hmulsucc : (n + 1) * s = s + n * s := by ring
    rw [htail, ih (a + s) s (by rw [hmulsucc] at h; omega)]
    rw [Nat.zero_mul, Nat.add_zero, hmulsucc, List.take_add, List.drop_drop]

theorem roundHalfEven_natCast (m : ℕ) : roundHalfEven (m : ℚ) = m := by
  unfold roundHalfEven
  rw [Int.fract_natCast]
  norm_num

theorem floor_tick_add (m s : ℕ) (hm : m ≤ 31249) :
    ⌊(m : ℚ) * SECONDS_PER_TICK + (s : ℚ)⌋ = s := by
  rw [Int.floor_add_nat]
  have h0 : ⌊(m : ℚ) * SECONDS_PER_TICK⌋ = 0 := by
    apply Int.floor_eq_zero_iff.mpr
    rw [Set.mem_Ico]
    have hle : (m : ℚ) ≤ 31249 := by exact_mod_cast hm
    unfold SECONDS_PER_TICK
    constructor
    · positivity
    · nlinarith
  rw [h0]
  simp

theorem tick_recover (m s : ℕ) :
    (((m : ℚ) * SECONDS_PER_TICK + (s : ℚ)) - (s : ℚ)) / SECONDS_PER_TICK = m := by
  have hc : SECONDS_PER_TICK ≠ 0 := by unfold SECONDS_PER_TICK; norm_num
  field_simp

theorem seg_length (data : List ℕ) (off w : ℕ) (h : off + w ≤ data.length) :
    ((data.drop off).take w).length = w := by
  rw [List.length_take, List.length_drop]
  omega

theorem seg_bytes (data : List ℕ) (hbytes : ∀ b ∈ data, b < 256) (off w : ℕ) :
    ∀ b ∈ (data.drop off).take w, b < 256 := fun b hb =>
  hbytes b (List.mem_of_mem_drop (List.mem_of_mem_take hb))

theorem leBytes_readLE (data : List ℕ) (hbytes : ∀ b ∈ data, b < 256) (off w : ℕ)
    (h : off + w ≤ data.length) :
    leBytes w (readLE data off w) = (data.drop off).take w := by
  have hlen := seg_length data off w h
  calc leBytes w (readLE data off w)
      = leBytes ((data.drop off).take w).length (fromLEBytes ((data.drop off).take w)) := by
        rw [hlen]; rfl
    _ = (data.drop off).take w := leBytes_fromLEBytes _ (seg_bytes data hbytes off w)

theorem readLE_lt (data : List ℕ) (hbytes : ∀ b ∈ data, b < 256) (off w : ℕ)
    (h : off + w ≤ data.length) : readLE data off w < 256 ^ w := by
  have hlen := seg_length data off w h
  have := fromLEBytes_lt ((data.drop off).take w) (seg_bytes data hbytes off w)
  rw [hlen] at this
  exact this

set_option maxRecDepth 4096 in
theorem or16_and239 : ∀ b < 256, b &&& 16 ≠ 0 → ((b &&& 239) ||| 16) % 256 = b := by
  decide

theorem getD_lt_of_bytes (data : List ℕ) (hbytes : ∀ b ∈ data, b < 256) (j : ℕ)
    (h : j < data.length) : data.getD j 0 < 256 := by
  rw [List.getD_eq_getElem _ _ h]
  exact hbytes _ (List.getElem_mem h)

theorem format_ok_ts (times : List ℚ) (P : List (List ℕ)) (tag : ℕ) (K : List ℕ)
    (addr : ℕ) (esize : ℕ)
    (hesize : dtypeItemsize tag = some esize)
    (hP : P ≠ [])
    (hrect : ∀ r ∈ P, r.length = (P.headD []).length)
    (hK : K.length = P.length)
    (hT : times.length = P.length)
    (hnc : (P.headD []).length ≠ 0) :
    format ⟨false, some times, P, some tag, some K, none⟩ addr none none none =
      Except.ok (((List.range P.length).map (fun i =>
        let body :=
          [(K.getD i 0) % 256, ((P.headD []).length * esize + 6 + 6 - 2) % 256, addr % 256,
            255 % 256, (tag ||| 16) % 256]
          ++ (leBytes 4 (truncUInt32 (times.getD i 0)) ++
              leBytes 2 (((roundHalfEven (((times.getD i 0) -
                ((truncUInt32 (times.getD i 0) : ℕ) : ℚ)) / SECONDS_PER_TICK)) % 65536).toNat))
          ++ ((P.getD i []).map (fun v => leBytes esize (v % 256 ^ esize))).flatten
        body ++ [body.sum % 256])).flatten) := by
  unfold format
  dsimp only
  rw [if_neg (by simpa using hP)]
  rw [hesize]
  dsimp only
  simp only [eq_self_iff_true, if_true, true_and, Option.getD_none]
  have hguard : ¬((P.any fun r => decide (r.length ≠ (P.headD []).length)) = true ∨
      K.length ≠ P.length ∨ times.length ≠ P.length) := by
    rintro (h1 | h2 | h3)
    · simp only [List.any_eq_true, decide_eq_true_eq] at h1
      obtain ⟨r, hr, hne⟩ := h1
      exact hne (hrect r hr)
    · exact h2 hK
    · exact h3 hT
  rw [if_neg hguard, if_neg hnc]

theorem format_ok_nots (P : List (List ℕ)) (tag : ℕ) (K : List ℕ)
    (addr : ℕ) (esize : ℕ)
    (hesize : dtypeItemsize tag = some esize)
    (hP : P ≠ [])
    (hrect : ∀ r ∈ P, r.length = (P.headD []).length)
    (hK : K.length = P.length)
    (hnc : (P.headD []).length ≠ 0) :
    format ⟨false, none, P, some tag, some K, none⟩ addr none none none =
      Except.ok (((List.range P.length).map (fun i =>
        let body :=
          [(K.getD i 0) % 256, ((P.headD []).length * esize + 6 + 0 - 2) % 256, addr % 256,
            255 % 256, tag % 256]
          ++ ((P.getD i []).map (fun v => leBytes esize (v % 256 ^ esize))).flatten
        body ++ [body.sum % 256])).flatten) := by
  unfold format
  dsimp only
  rw [if_neg (by simpa using hP)]
  rw [hesize]
  dsimp only
  simp only [Bool.false_eq_true, false_and, if_false, or_false, Option.getD_none,
    List.nil_append, List.append_nil]
  have hguard : ¬((P.any fun r => decide (r.length ≠ (P.headD []).length)) = true ∨
      K.length ≠ P.length) := by
    rintro (h1 | h2)
    · simp only [List.any_eq_true, decide_eq_true_eq] at h1
      obtain ⟨r, hr, hne⟩ := h1
      exact hne (hrect r hr)
    · exact h2 hK
  rw [if_neg hguard, if_neg hnc]

theorem seg_eq_map_getD (data : List ℕ) (m w : ℕ) (h : m + w ≤ data.length) :
    (data.drop m).take w = (List.range w).map (fun k => data.getD (m + k) 0) := by
  apply List.ext_getElem
  · rw [seg_length data m w h, List.length_map, List.length_range]
  · intro k h1 h2
    rw [List.getElem_take, List.getElem_drop, List.getElem_map, List.getElem_range,
      List.getD_eq_getElem _ _ (by rw [seg_length data m w h] at h1; omega)]

theorem seg_glue (data : List ℕ) (a w1 b w2 w3 : ℕ) (hb : b = a + w1) (hw : w3 = w1 + w2) :
    (data.drop a).take w1 ++ (data.drop b).take w2 = (data.drop a).take w3 := by
  subst hb
  subst hw
  rw [List.take_add]
  congr 1
  rw [List.drop_drop, Nat.add_comm]

theorem seg_snoc (data : List ℕ) (a w w1 : ℕ) (h : a + w < data.length) (hw : w1 = w + 1) :
    (data.drop a).take w ++ [data.getD (a + w) 0] = (data.drop a).take w1 := by
  subst hw
  rw [List.take_succ]
  congr 1
  rw [List.getElem?_drop, List.getElem?_eq_getElem h, List.getD_eq_getElem _ _ h]
  rfl

/-- Re-encoding the frame decoded from a round-trippable buffer reproduces the
buffer byte for byte. -/
theorem format_decodedFrame (data : List ℕ) (hRT : WellFormedRT data) :
    format (decodedFrame data none none true) (data.getD 2 0) none none none =
      Except.ok data := by
  obtain ⟨hwf, hbytes, hnc1, hdvd, hconst, hchk, hticks⟩ := hRT
  have h5 := wfb_len5 data hwf
  obtain ⟨hr1, hmul, hoffb, htag, hkinds⟩ := hwf
  obtain ⟨esize, hesize⟩ := Option.isSome_iff_exists.mp htag
  have hes : bufESize data = esize := by unfold bufESize; rw [hesize]; rfl
  have hepos : 0 < esize := dtypeItemsize_pos hesize
  rw [hes] at hnc1 hdvd
  by_cases ht : bufTimestamped data
  · have hpo : bufPayloadOffset data = 11 := by unfold bufPayloadOffset; rw [if_pos ht]
    rw [hpo] at hoffb hnc1 hdvd
    have hframe : decodedFrame data none none true =
        ⟨false, some (decodedTimes data),
         (List.range (bufRows data)).map (fun i =>
           (List.range ((bufStride data - 11 - 1) / esize)).map (fun j =>
             readLE data (i * bufStride data + 11 + j * esize) esize)),
         some (bufClearedTag data),
         some ((List.range (bufRows data)).map (fun i => data.getD (i * bufStride data) 0)),
         none⟩ := by
      rw [decodedFrame_eq data none none true esize hesize]
      unfold decodedIsDt decodedTimesArg
      rw [if_pos ht, if_pos ht, hpo]
      rfl
    rw [hframe]
    rw [format_ok_ts (decodedTimes data) _ (bufClearedTag data) _ (data.getD 2 0) esize hesize
      (by
        intro hcon
        have := congrArg List.length hcon
        simp only [List.length_map, List.length_range, List.length_nil] at this
        omega)
      (by
        intro r hr
        rw [List.mem_map] at hr
        obtain ⟨j, hj, rfl⟩ := hr
        simp only [List.length_map, List.length_range]
        obtain ⟨q, hq⟩ : ∃ q, bufRows data = q + 1 := ⟨bufRows data - 1, by omega⟩
        rw [hq, List.range_succ_eq_map, List.map_cons, List.headD_cons, List.length_map,
          List.length_range])
      (by simp)
      (by simp [decodedTimes])
      (by
        obtain ⟨q, hq⟩ : ∃ q, bufRows data = q + 1 := ⟨bufRows data - 1, by omega⟩
        rw [hq, List.range_succ_eq_map, List.map_cons, List.headD_cons, List.length_map,
          List.length_range]
        omega)]
    have hhead : (((List.range (bufRows data)).map (fun i =>
        (List.range ((bufStride data - 11 - 1) / esize)).map (fun j =>
          readLE data (i * bufStride data + 11 + j * esize) esize))).headD []).length =
        (bufStride data - 11 - 1) / esize := by
      obtain ⟨q, hq⟩ : ∃ q, bufRows data = q + 1 := ⟨bufRows data - 1, by omega⟩
      rw [hq, List.range_succ_eq_map, List.map_cons, List.headD_cons, List.length_map,
        List.length_range]
    rw [hhead, List.length_map, List.length_range]
    have hflat := flatten_chunks data (bufRows data) 0 (bufStride data)
      (by rw [Nat.zero_add, ← hmul])
    rw [List.drop_zero, ← hmul, List.take_length] at hflat
    conv_rhs => rw [← hflat]
    congr 1
    congr 1
    apply List.map_congr_left
    intro i hi'
    have hi : i < bufRows data := List.mem_range.mp hi'
    rw [Nat.zero_add]
    dsimp only
    have hrow_end : i * bufStride data + bufStride data ≤ data.length := by
      have h1 : (i + 1) * bufStride data ≤ bufRows data * bufStride data :=
        Nat.mul_le_mul_right _ hi
      have h2 : (i + 1) * bufStride data = i * bufStride data + bufStride data := by ring
      rw [h2] at h1
      omega
    have hstr12 : 12 ≤ bufStride data := by omega
    have hncmul : (bufStride data - 11 - 1) / esize * esize = bufStride data - 12 := by
      have := Nat.div_mul_cancel hdvd
      omega
    have hKk : (List.map (fun i => data.getD (i * bufStride data) 0)
        (List.range (bufRows data))).getD i 0 = data.getD (i * bufStride data) 0 :=
      getD_map_range _ _ hi
    have hb0 : data.getD (i * bufStride data) 0 % 256 = data.getD (i * bufStride data) 0 :=
      Nat.mod_eq_of_lt (getD_lt_of_bytes data hbytes _ (by omega))
    have hb1 : ((bufStride data - 11 - 1) / esize * esize + 6 + 6 - 2) % 256 =
        data.getD (i * bufStride data + 1) 0 := by
      rw [hncmul, (hconst i hi).2.1]
      have hg1 : data.getD 1 0 = bufStride data - 2 := by unfold bufStride; omega
      have hlt : bufStride data - 2 < 256 := by
        have := getD_lt_of_bytes data hbytes 1 (by omega)
        omega
      rw [hg1]
      have harith : bufStride data - 12 + 6 + 6 - 2 = bufStride data - 2 := by omega
      rw [harith, Nat.mod_eq_of_lt hlt]
    have hb2 : data.getD 2 0 % 256 = data.getD (i * bufStride data + 2) 0 := by
      rw [(hconst i hi).2.2.1, Nat.mod_eq_of_lt (getD_lt_of_bytes data hbytes 2 (by omega))]
    have hb3 : (255 : ℕ) % 256 = data.getD (i * bufStride data + 3) 0 := by
      rw [(hconst i hi).2.2.2.1]
    have hb4 : (bufClearedTag data ||| 16) % 256 = data.getD (i * bufStride data + 4) 0 := by
      rw [(hconst i hi).2.2.2.2]
      unfold bufClearedTag
      rw [if_pos ht]
      exact or16_and239 _ (getD_lt_of_bytes data hbytes 4 (by omega)) ht
    have htime : (decodedTimes data).getD i 0 =
        (readLE data (i * bufStride data + 9) 2 : ℚ) * SECONDS_PER_TICK +
          (readLE data (i * bufStride data + 5) 4 : ℚ) := by
      unfold decodedTimes
      exact getD_map_range _ _ hi
    rw [htime, hKk, hb0, hb1, hb2, hb3, hb4]
    have hm_le : readLE data (i * bufStride data + 9) 2 ≤ 31249 := hticks ht i hi
    have hs4_lt : readLE data (i * bufStride data + 5) 4 < 256 ^ 4 :=
      readLE_lt data hbytes _ 4 (by omega)
    have hsecs : truncUInt32 ((readLE data (i * bufStride data + 9) 2 : ℚ) * SECONDS_PER_TICK +
        (readLE data (i * bufStride data + 5) 4 : ℚ)) =
        readLE data (i * bufStride data + 5) 4 := by
      unfold truncUInt32
      rw [floor_tick_add _ _ hm_le, Int.toNat_ofNat]
      exact Nat.mod_eq_of_lt (lt_of_lt_of_le hs4_lt (by norm_num))
    rw [hsecs]
    have hticksv : ((roundHalfEven ((((readLE data (i * bufStride data + 9) 2 : ℚ) *
        SECONDS_PER_TICK + (readLE data (i * bufStride data + 5) 4 : ℚ)) -
        ((readLE data (i * bufStride data + 5) 4 : ℕ) : ℚ)) / SECONDS_PER_TICK)) %
          65536).toNat = readLE data (i * bufStride data + 9) 2 := by
      rw [tick_recover, roundHalfEven_natCast,
        Int.emod_eq_of_lt (by positivity)
          (by exact_mod_cast (by omega : readLE data (i * bufStride data + 9) 2 < 65536)),
        Int.toNat_ofNat]
    rw [hticksv]
    rw [leBytes_readLE data hbytes (i * bufStride data + 5) 4 (by omega),
        leBytes_readLE data hbytes (i * bufStride data + 9) 2 (by omega)]
    have hPi : (List.map (fun i => List.map
        (fun j => readLE data (i * bufStride data + 11 + j * esize) esize)
        (List.range ((bufStride data - 11 - 1) / esize))) (List.range (bufRows data))).getD i [] =
        List.map (fun j => readLE data (i * bufStride data + 11 + j * esize) esize)
          (List.range ((bufStride data - 11 - 1) / esize)) :=
      getD_map_range _ _ hi
    rw [hPi, List.map_map]
    have hmapj : (List.range ((bufStride data - 11 - 1) / esize)).map
        ((fun v => leBytes esize (v % 256 ^ esize)) ∘
          (fun j => readLE data (i * bufStride data + 11 + j * esize) esize)) =
        (List.range ((bufStride data - 11 - 1) / esize)).map
          (fun j => (data.drop (i * bufStride data + 11 + j * esize)).take esize) := by
      apply List.map_congr_left
      intro j hj'
      have hj : j < (bufStride data - 11 - 1) / esize := List.mem_range.mp hj'
      simp only [Function.comp]
      have hjb : i * bufStride data + 11 + j * esize + esize ≤ data.length := by
        have h1 : (j + 1) * esize ≤ (bufStride data - 11 - 1) / esize * esize :=
          Nat.mul_le_mul_right _ hj
        have h2 : (j + 1) * esize = j * esize + esize := by ring
        rw [h2, hncmul] at h1
        omega
      rw [Nat.mod_eq_of_lt (readLE_lt data hbytes _ esize hjb)]
      exact leBytes_readLE data hbytes _ esize hjb
    rw [hmapj]
    rw [flatten_chunks data ((bufStride data - 11 - 1) / esize) (i * bufStride data + 11) esize
      (by rw [hncmul]; omega)]
    rw [hncmul]
    rw [seg_glue data (i * bufStride data + 5) 4 (i * bufStride data + 9) 2 6
      (by omega) (by norm_num)]
    have hheader : [data.getD (i * bufStride data) 0, data.getD (i * bufStride data + 1) 0,
        data.getD (i * bufStride data + 2) 0, data.getD (i * bufStride data + 3) 0,
        data.getD (i * bufStride data + 4) 0] = (data.drop (i * bufStride data)).take 5 := by
      rw [seg_eq_map_getD data (i * bufStride data) 5 (by omega)]
      have hr5 : List.range 5 = [0, 1, 2, 3, 4] := rfl
      rw [hr5]
      simp
    rw [hheader]
    rw [seg_glue data (i * bufStride data) 5 (i * bufStride data + 5) 6 11 rfl (by norm_num)]
    rw [seg_glue data (i * bufStride data) 11 (i * bufStride data + 11) (bufStride data - 12)
      (bufStride data - 1) rfl (by omega)]
    rw [← (hchk i hi)]
    exact seg_snoc data (i * bufStride data) (bufStride data - 1) (bufStride data)
      (by omega) (by omega)
  · have hpo : bufPayloadOffset data = 5 := by unfold bufPayloadOffset; rw [if_neg ht]
    rw [hpo] at hoffb hnc1 hdvd
    have hframe : decodedFrame data none none true =
        ⟨false, none,
         (List.range (bufRows data)).map (fun i =>
           (List.range ((bufStride data - 5 - 1) / esize)).map (fun j =>
             readLE data (i * bufStride data + 5 + j * esize) esize)),
         some (bufClearedTag data),
         some ((List.range (bufRows data)).map (fun i => data.getD (i * bufStride data) 0)),
         none⟩ := by
      rw [decodedFrame_eq data none none true esize hesize]
      unfold decodedIsDt decodedTimesArg
      rw [if_neg ht, if_neg ht, hpo]
      rfl
    rw [hframe]
    rw [format_ok_nots _ (bufClearedTag data) _ (data.getD 2 0) esize hesize
      (by
        intro hcon
        have := congrArg List.length hcon
        simp only [List.length_map, List.length_range, List.length_nil] at this
        omega)
      (by
        intro r hr
        rw [List.mem_map] at hr
        obtain ⟨j, hj, rfl⟩ := hr
        simp only [List.length_map, List.length_range]
        obtain ⟨q, hq⟩ : ∃ q, bufRows data = q + 1 := ⟨bufRows data - 1, by omega⟩
        rw [hq, List.range_succ_eq_map, List.map_cons, List.headD_cons, List.length_map,
          List.length_range])
      (by simp)
      (by
        obtain ⟨q, hq⟩ : ∃ q, bufRows data = q + 1 := ⟨bufRows data - 1, by omega⟩
        rw [hq, List.range_succ_eq_map, List.map_cons, List.headD_cons, List.length_map,
          List.length_range]
        omega)]
    have hhead : (((List.range (bufRows data)).map (fun i =>
        (List.range ((bufStride data - 5 - 1) / esize)).map (fun j =>
          readLE data (i * bufStride data + 5 + j * esize) esize))).headD []).length =
        (bufStride data - 5 - 1) / esize := by
      obtain ⟨q, hq⟩ : ∃ q, bufRows data = q + 1 := ⟨bufRows data - 1, by omega⟩
      rw [hq, List.range_succ_eq_map, List.map_cons, List.headD_cons, List.length_map,
        List.length_range]
    rw [hhead, List.length_map, List.length_range]
    have hflat := flatten_chunks data (bufRows data) 0 (bufStride data)
      (by rw [Nat.zero_add, ← hmul])
    rw [List.drop_zero, ← hmul, List.take_length] at hflat
    conv_rhs => rw [← hflat]
    congr 1
    congr 1
    apply List.map_congr_left
    intro i hi'
    have hi : i < bufRows data := List.mem_range.mp hi'
    rw [Nat.zero_add]
    dsimp only
    have hrow_end : i * bufStride data + bufStride data ≤ data.length := by
      have h1 : (i + 1) * bufStride data ≤ bufRows data * bufStride data :=
        Nat.mul_le_mul_right _ hi
      have h2 : (i + 1) * bufStride data = i * bufStride data + bufStride data := by ring
      rw [h2] at h1
      omega
    have hstr6 : 6 ≤ bufStride data := by omega
    have hncmul : (bufStride data - 5 - 1) / esize * esize = bufStride data - 6 := by
      have := Nat.div_mul_cancel hdvd
      omega
    have hKk : (List.map (fun i => data.getD (i * bufStride data) 0)
        (List.range (bufRows data))).getD i 0 = data.getD (i * bufStride data) 0 :=
      getD_map_range _ _ hi
    have hb0 : data.getD (i * bufStride data) 0 % 256 = data.getD (i * bufStride data) 0 :=
      Nat.mod_eq_of_lt (getD_lt_of_bytes data hbytes _ (by omega))
    have hb1 : ((bufStride data - 5 - 1) / esize * esize + 6 + 0 - 2) % 256 =
        data.getD (i * bufStride data + 1) 0 := by
      rw [hncmul, (hconst i hi).2.1]
      have hg1 : data.getD 1 0 = bufStride data - 2 := by unfold bufStride; omega
      have hlt : bufStride data - 2 < 256 := by
        have := getD_lt_of_bytes data hbytes 1 (by omega)
        omega
      rw [hg1]
      have harith : bufStride data - 6 + 6 + 0 - 2 = bufStride data - 2 := by omega
      rw [harith, Nat.mod_eq_of_lt hlt]
    have hb2 : data.getD 2 0 % 256 = data.getD (i * bufStride data + 2) 0 := by
      rw [(hconst i hi).2.2.1, Nat.mod_eq_of_lt (getD_lt_of_bytes data hbytes 2 (by omega))]
    have hb3 : (255 : ℕ) % 256 = data.getD (i * bufStride data + 3) 0 := by
      rw [(hconst i hi).2.2.2.1]
    have hb4 : bufClearedTag data % 256 = data.getD (i * bufStride data + 4) 0 := by
      rw [(hconst i hi).2.2.2.2]
      unfold bufClearedTag
      rw [if_neg ht]
      exact Nat.mod_eq_of_lt (getD_lt_of_bytes data hbytes 4 (by omega))
    rw [hKk, hb0, hb1, hb2, hb3, hb4]
    have hPi : (List.map (fun i => List.map
        (fun j => readLE data (i * bufStride data + 5 + j * esize) esize)
        (List.range ((bufStride data - 5 - 1) / esize))) (List.range (bufRows data))).getD i [] =
        List.map (fun j => readLE data (i * bufStride data + 5 + j * esize) esize)
          (List.range ((bufStride data - 5 - 1) / esize)) :=
      getD_map_range _ _ hi
    rw [hPi, List.map_map]
    have hmapj : (List.range ((bufStride data - 5 - 1) / esize)).map
        ((fun v => leBytes esize (v % 256 ^ esize)) ∘
          (fun j => readLE data (i * bufStride data + 5 + j * esize) esize)) =
        (List.range ((bufStride data - 5 - 1) / esize)).map
          (fun j => (data.drop (i * bufStride data + 5 + j * esize)).take esize) := by
      apply List.map_congr_left
      intro j hj'
      have hj : j < (bufStride data - 5 - 1) / esize := List.mem_range.mp hj'
      simp only [Function.comp]
      have hjb : i * bufStride data + 5 + j * esize + esize ≤ data.length := by
        have h1 : (j + 1) * esize ≤ (bufStride data - 5 - 1) / esize * esize :=
          Nat.mul_le_mul_right _ hj
        have h2 : (j + 1) * esize = j * esize + esize := by ring
        rw [h2, hncmul] at h1
        omega
      rw [Nat.mod_eq_of_lt (readLE_lt data hbytes _ esize hjb)]
      exact leBytes_readLE data hbytes _ esize hjb
    rw [hmapj]
    rw [flatten_chunks data ((bufStride data - 5 - 1) / esize) (i * bufStride data + 5) esize
      (by rw [hncmul]; omega)]
    rw [hncmul]
    have hheader : [data.getD (i * bufStride data) 0, data.getD (i * bufStride data + 1) 0,
        data.getD (i * bufStride data + 2) 0, data.getD (i * bufStride data + 3) 0,
        data.getD (i * bufStride data + 4) 0] = (data.drop (i * bufStride data)).take 5 := by
      rw [seg_eq_map_getD data (i * bufStride data) 5 (by omega)]
      have hr5 : List.range 5 = [0, 1, 2, 3, 4] := rfl
      rw [hr5]
      simp
    rw [hheader]
    rw [seg_glue data (i * bufStride data) 5 (i * bufStride data + 5) (bufStride data - 6)
      (bufStride data - 1) rfl (by omega)]
    rw [← (hchk i hi)]
    exact seg_snoc data (i * bufStride data) (bufStride data - 1) (bufStride data)
      (by omega) (by omega)

/-- C1 (corrected): the spec's round-trip preconditions (non-empty, length an
exact multiple of the stride, constant kind/address/port/type across rows) are
not sufficient: the one-row buffer [1, 5, 3, 255, 1, 42, 0] satisfies them (its
single row is trivially constant, with port byte 255), yet decoding and
re-encoding yields [1, 5, 3, 255, 1, 42, 51], because the decoder never checks
the checksum byte and the encoder recomputes it. -/
theorem c1_counterexample :
    [(1 : ℕ), 5, 3, 255, 1, 42, 0] ≠ [] ∧
    ([(1 : ℕ), 5, 3, 255, 1, 42, 0] : List ℕ).length =
      bufRows [1, 5, 3, 255, 1, 42, 0] * bufStride [1, 5, 3, 255, 1, 42, 0] ∧
    _fromraw [1, 5, 3, 255, 1, 42, 0] none none none none none true =
      Except.ok ⟨false, none, [[42]], some 1, some [1], none⟩ ∧
    format ⟨false, none, [[42]], some 1, some [1], none⟩
        (([(1 : ℕ), 5, 3, 255, 1, 42, 0] : List ℕ).getD 2 0) none none none =
      Except.ok [1, 5, 3, 255, 1, 42, 51] ∧
    [(1 : ℕ), 5, 3, 255, 1, 42, 51] ≠ [1, 5, 3, 255, 1, 42, 0] := by
  refine ⟨by decide, by decide, ?_, ?_, by decide⟩
  · decide
  · decide

/-- C1 (amended): for every round-trippable buffer (well formed, all entries
bytes, at least one payload element per row with no slack after the payload,
constant header bytes across rows with port 255, correct per-row checksums, and
sub-second tick counters when timestamped), decoding with `keep_type` succeeds
and produces the decoded frame, and re-encoding that frame with the buffer's own
address reproduces the original buffer byte for byte, including every per-row
checksum byte. -/
theorem c1_roundtrip (data : List ℕ) (h : WellFormedRT data) :
    _fromraw data none none none none none true =
      Except.ok (decodedFrame data none none true) ∧
    format (decodedFrame data none none true) (data.getD 2 0) none none none =
      Except.ok data := by
  obtain ⟨esize, hesize⟩ := Option.isSome_iff_exists.mp h.1.2.2.2.1
  exact ⟨fromraw_wf_ok data none none none none none true esize h.1 (Or.inl rfl) hesize
    (Or.inl rfl) (Or.inl rfl), format_decodedFrame data h⟩

/-- Witness for C1 (amended) at the one-row timestamped buffer
[2, 11, 42, 255, 17, 1, 0, 0, 0, 2, 0, 7, 81]. -/
theorem c1_witness :
    WellFormedRT [2, 11, 42, 255, 17, 1, 0, 0, 0, 2, 0, 7, 81] ∧
    (_fromraw [2, 11, 42, 255, 17, 1, 0, 0, 0, 2, 0, 7, 81] none none none none none true =
      Except.ok (decodedFrame [2, 11, 42, 255, 17, 1, 0, 0, 0, 2, 0, 7, 81] none none true) ∧
    format (decodedFrame [2, 11, 42, 255, 17, 1, 0, 0, 0, 2, 0, 7, 81] none none true)
        (([(2 : ℕ), 11, 42, 255, 17, 1, 0, 0, 0, 2, 0, 7, 81] : List ℕ).getD 2 0)
        none none none =
      Except.ok [2, 11, 42, 255, 17, 1, 0, 0, 0, 2, 0, 7, 81]) :=
  ⟨by decide, c1_roundtrip [2, 11, 42, 255, 17, 1, 0, 0, 0, 2, 0, 7, 81] (by decide)⟩
